import Mathlib

/-!
# go-socket.io packet encoder: a shallow embedding

The definitions below embed `parser/encoder.go` (the event encoder and its
buffer walker `attachBuffer`) and the URL handling of
`engineio/transport/websocket/transport.go`.  The decoder, the header and the
placeholder type are not among the sources at hand and are modelled from the
specification, each definition saying so.

Conventions.
* Bytes and `uint64` values are natural numbers; wrap-around is written
  explicitly (`% 256`, `% 2 ^ 64`) where the Go arithmetic could wrap.
* A `reflect.Value` is a tree (`Value`) together with the flag bits the
  package `reflect` tracks for it (`Flag`).  In-place stamping of a
  placeholder is modelled by returning the updated tree; values shared
  between two places of an argument (aliased pointers) are not represented.
* The frame writer is a log of the calls made on it plus the answers the
  surroundings give to them (`Env`, `Log`).  A Go slice holds fewer than
  `2 ^ 63` elements, which is where the bounds `< 2 ^ 64` on the number of
  buffers in the statements come from.
-/

namespace Parser

/-! ## Data model -/

/-- Modelled from the spec: the placeholder type `Buffer` is declared outside
`encoder.go`; §3 gives it an index and the raw data, and `attachBuffer`
(lines 167-170) uses its fields `Data`, `isBinary` and `num`. -/
structure Buffer where
  Data : List Nat
  isBinary : Bool
  num : Nat
  deriving DecidableEq, Repr

/-- Modelled from the spec: the constant `bufferTypeName` is declared outside
`encoder.go`.  It is the value `reflect.Type.Name()` gives for the placeholder
type `Buffer`, which the conversion on line 167 names. -/
def bufferTypeName : String := "Buffer"

/-- How a struct field was declared, as far as `reflect.Value.Field` cares. -/
inductive FieldKind where
  | exported
  | unexported
  | unexportedEmbedded
  deriving DecidableEq, Repr

/-- An argument value as the package `reflect` sees it.

* `invalid`: the zero `reflect.Value` (what `Elem` gives for a nil pointer or
  a nil interface);
* `scalar`: a value of any kind the walker has no case for (bool, number,
  string, chan, func, ...), with an opaque payload;
* `ptr` / `iface`: a pointer or an interface holding a value;
* `buffer`: a struct whose type is the placeholder type `parser.Buffer`;
* `struct`: a struct of any other type; `typeName` is `Type().Name()`;
* `array` / `slice`: a sequence;
* `map`: a map, its entries listed in the order `MapKeys` returns the keys on
  this run (Go leaves that order unspecified).

A `Value` is a tree: every position is memory of its own.  An argument in
which one pointer occurs twice (`Encode(h, p, p)`) is therefore not a `Value`:
there the walker writes lines 168-169 twice into the one struct, and the later
index stays.  The statements below are about arguments without such sharing. -/
inductive Value where
  | invalid : Value
  | scalar (payload : String) : Value
  | ptr (elem : Value) : Value
  | iface (elem : Value) : Value
  | buffer (b : Buffer) : Value
  | struct (typeName : String) (fields : List (FieldKind × Value)) : Value
  | array (elems : List Value) : Value
  | slice (elems : List Value) : Value
  | map (entries : List (String × Value)) : Value

/-- The flag bits of a `reflect.Value` the walker depends on: `addr` is
`flagAddr` (`CanAddr`), `stickyRO` and `embedRO` are the two read-only bits set
for values reached through unexported fields (`Interface` panics when either
is set). -/
structure Flag where
  addr : Bool
  stickyRO : Bool
  embedRO : Bool
  deriving DecidableEq, Repr

/-- Flags of `reflect.ValueOf(x)`: not addressable, not read-only. -/
def Flag.ofValueOf : Flag := ⟨false, false, false⟩

/-- The bit `flag.ro()` of package reflect: any read-only bit becomes sticky. -/
def Flag.ro (f : Flag) : Bool := f.stickyRO || f.embedRO

/-- Flags of `v.Elem()` for a pointer: addressable, read-only bits kept. -/
def Flag.ptrElem (f : Flag) : Flag := ⟨true, f.stickyRO, f.embedRO⟩

/-- Flags of `v.Elem()` for an interface: the boxed value is not addressable. -/
def Flag.ifaceElem (f : Flag) : Flag := ⟨false, f.ro, false⟩

/-- Flags of `v.Field(i)`: addressability and the sticky bit are inherited, the
embed bit is cleared, and an unexported field sets its own read-only bit. -/
def Flag.field (f : Flag) (k : FieldKind) : Flag :=
  match k with
  | .exported => ⟨f.addr, f.stickyRO, false⟩
  | .unexported => ⟨f.addr, true, false⟩
  | .unexportedEmbedded => ⟨f.addr, f.stickyRO, true⟩

/-- Flags of `v.Index(i)` for an array: addressable iff the array is. -/
def Flag.arrayIndex (f : Flag) : Flag := ⟨f.addr, f.ro, false⟩

/-- Flags of `v.Index(i)` for a slice: always addressable. -/
def Flag.sliceIndex (f : Flag) : Flag := ⟨true, f.ro, false⟩

/-- Flags of `v.MapIndex(key)`: a copy, never addressable. -/
def Flag.mapIndex (f : Flag) : Flag := ⟨false, f.ro, false⟩

/-- An error value.  `errFailedBufferAddress` is the sentinel of line 165; every
other error (of a writer, of the JSON encoder) is opaque. -/
inductive Err where
  | errFailedBufferAddress
  | other (code : Nat)
  deriving DecidableEq, Repr

/-- The two run-time panics the walker can raise on line 167. -/
inductive Panic where
  | unexportedInterface
  | typeAssertion
  deriving DecidableEq, Repr

/-- Outcome of a call: a normal return, a returned error, or a panic. -/
inductive Result (α : Type) where
  | ok (a : α)
  | err (e : Err)
  | panic (p : Panic)
  deriving Repr

/-- Sequencing of calls: the first error or panic ends the run, as the
`if err != nil { return ... }` after each call does. -/
def Result.bind {α β : Type} (x : Result α) (f : α → Result β) : Result β :=
  match x with
  | .ok a => f a
  | .err e => .err e
  | .panic p => .panic p

/-- What a successful walk gives back: the value with its placeholders stamped,
the extracted buffers `ret`, and the index counter `*index`. -/
structure Walk (α : Type) where
  val : α
  ret : List (List Nat)
  index : Nat

/-! ## The buffer walker (`encoder.go`, lines 155-204) -/

mutual
/-- `Encoder.attachBuffer`: `v` with flags `fl`, the counter `*index = idx`. -/
def attachBuffer (v : Value) (fl : Flag) (idx : Nat) : Result (Walk Value) :=
  match v with
  | .ptr e =>
    (attachBuffer e fl.ptrElem idx).bind fun w => .ok ⟨.ptr w.val, w.ret, w.index⟩
  | .iface e =>
    (attachBuffer e fl.ifaceElem idx).bind fun w => .ok ⟨.iface w.val, w.ret, w.index⟩
  | .buffer b =>
    if !fl.addr then .err .errFailedBufferAddress
    else if fl.stickyRO || fl.embedRO then .panic .unexportedInterface
    else .ok ⟨.buffer { b with num := idx, isBinary := true }, [b.Data], (idx + 1) % 2 ^ 64⟩
  | .struct name fields =>
    if name = bufferTypeName then
      if !fl.addr then .err .errFailedBufferAddress
      else if fl.stickyRO || fl.embedRO then .panic .unexportedInterface
      else .panic .typeAssertion
    else
      (attachFields fields fl idx).bind fun w => .ok ⟨.struct name w.val, w.ret, w.index⟩
  | .array elems =>
    (attachElems elems fl.arrayIndex idx).bind fun w => .ok ⟨.array w.val, w.ret, w.index⟩
  | .slice elems =>
    (attachElems elems fl.sliceIndex idx).bind fun w => .ok ⟨.slice w.val, w.ret, w.index⟩
  | .map entries =>
    (attachEntries entries fl.mapIndex idx).bind fun w => .ok ⟨.map w.val, w.ret, w.index⟩
  | .invalid => .ok ⟨.invalid, [], idx⟩
  | .scalar p => .ok ⟨.scalar p, [], idx⟩
/-- The loop of lines 173-179 over the fields still to visit. -/
def attachFields (fields : List (FieldKind × Value)) (fl : Flag) (idx : Nat) :
    Result (Walk (List (FieldKind × Value))) :=
  match fields with
  | [] => .ok ⟨[], [], idx⟩
  | (k, v) :: rest =>
    (attachBuffer v (fl.field k) idx).bind fun w =>
    (attachFields rest fl w.index).bind fun ws =>
    .ok ⟨(k, w.val) :: ws.val, w.ret ++ ws.ret, ws.index⟩
/-- The loop of lines 183-190 over the elements still to visit; `efl` is the
flag every `v.Index(i)` carries. -/
def attachElems (elems : List Value) (efl : Flag) (idx : Nat) :
    Result (Walk (List Value)) :=
  match elems with
  | [] => .ok ⟨[], [], idx⟩
  | v :: rest =>
    (attachBuffer v efl idx).bind fun w =>
    (attachElems rest efl w.index).bind fun ws =>
    .ok ⟨w.val :: ws.val, w.ret ++ ws.ret, ws.index⟩
/-- The loop of lines 193-200 over the map entries still to visit; `efl` is the
flag every `v.MapIndex(key)` carries. -/
def attachEntries (entries : List (String × Value)) (efl : Flag) (idx : Nat) :
    Result (Walk (List (String × Value))) :=
  match entries with
  | [] => .ok ⟨[], [], idx⟩
  | (k, v) :: rest =>
    (attachBuffer v efl idx).bind fun w =>
    (attachEntries rest efl w.index).bind fun ws =>
    .ok ⟨(k, w.val) :: ws.val, w.ret ++ ws.ret, ws.index⟩
end

/-! ## The placeholders of a value, in the order the walker meets them -/

/-- A struct the walker takes for a placeholder (its type is named
`bufferTypeName`), with the flags it is met with: `some b` when it really is a
`parser.Buffer`, `none` when it is a struct of another type of that name. -/
abbrev Met := Flag × Option Buffer

mutual
/-- The structs named `bufferTypeName` reachable from `v`, depth first (struct
fields in declaration order, sequence elements in index order, map entries in
the order of the key list), each with the flags it is reached with. -/
def met (v : Value) (fl : Flag) : List Met :=
  match v with
  | .ptr e => met e fl.ptrElem
  | .iface e => met e fl.ifaceElem
  | .buffer b => [(fl, some b)]
  | .struct name fields => if name = bufferTypeName then [(fl, none)] else metFields fields fl
  | .array elems => metElems elems fl.arrayIndex
  | .slice elems => metElems elems fl.sliceIndex
  | .map entries => metEntries entries fl.mapIndex
  | .invalid => []
  | .scalar _ => []
/-- The structs named `bufferTypeName` below a list of fields. -/
def metFields (fields : List (FieldKind × Value)) (fl : Flag) : List Met :=
  match fields with
  | [] => []
  | (k, v) :: rest => met v (fl.field k) ++ metFields rest fl
/-- The structs named `bufferTypeName` below a list of elements. -/
def metElems (elems : List Value) (efl : Flag) : List Met :=
  match elems with
  | [] => []
  | v :: rest => met v efl ++ metElems rest efl
/-- The structs named `bufferTypeName` below a list of map entries. -/
def metEntries (entries : List (String × Value)) (efl : Flag) : List Met :=
  match entries with
  | [] => []
  | (_, v) :: rest => met v efl ++ metEntries rest efl
end

/-- The placeholders (`parser.Buffer` structs) of `v` in depth-first order. -/
def placeholders (v : Value) (fl : Flag) : List Buffer :=
  (met v fl).filterMap Prod.snd

/-- The walker seen on the list of structs it meets: every one must be
addressable (else the error of line 165), must not have been reached through
an unexported field and must really be a `parser.Buffer` (else line 167
panics); it is then stamped with the counter, which moves on by one. -/
def scan (l : List Met) (idx : Nat) : Result (Walk (List Met)) :=
  match l with
  | [] => .ok ⟨[], [], idx⟩
  | (fl, ob) :: rest =>
    if !fl.addr then .err .errFailedBufferAddress
    else if fl.stickyRO || fl.embedRO then .panic .unexportedInterface
    else
      match ob with
      | none => .panic .typeAssertion
      | some b =>
        (scan rest ((idx + 1) % 2 ^ 64)).bind fun ws =>
        .ok ⟨(fl, some { b with num := idx, isBinary := true }) :: ws.val, b.Data :: ws.ret,
          ws.index⟩

/-! ## The frame writer (`encoder.go`, lines 13-15 and 63-70) -/

/-- Modelled from the spec: the frame kinds `session.TEXT` and `session.BINARY`
are declared outside the given sources; §3 describes a frame as tagged text or
binary. -/
inductive FrameType where
  | TEXT
  | BINARY
  deriving DecidableEq, Repr

/-- A call the encoder makes on the `FrameWriter` or on the writer of the
current frame.  `WriteByte`, `Write` and `Flush` are calls on `bw`: the frame's
writer itself when it has `WriteByte`, else the `bufio.Writer` wrapped around it
on line 81. -/
inductive Call where
  | NextWriter (ft : FrameType)
  | WriteByte (c : Nat)
  | Write (p : List Nat)
  | Flush
  | Close
  deriving DecidableEq, Repr

/-- What the encoder's surroundings decide: the error (or `none` for `nil`)
with which the `k`-th call of the run returns, whether `bw` has a `Flush`
method (line 130), and the result of marshalling a value to JSON (the JSON
codec is an external primitive). -/
structure Env where
  answer : Nat → Option Err
  flusher : Bool
  json : Value → Except Err (List Nat)

/-- The calls made so far, oldest first. -/
abbrev Log := List Call

/-- A piece of the encoder: it extends the log of calls and ends with a
result, an error or a panic. -/
def Run (α : Type) : Type := Log → Log × Result α

/-- Return without making a call. -/
def Run.pure {α : Type} (a : α) : Run α := fun log => (log, .ok a)

/-- Run `x`, and go on with `f` unless `x` ended with an error or a panic. -/
def Run.bind {α β : Type} (x : Run α) (f : α → Run β) : Run β := fun log =>
  match x log with
  | (log₁, .ok a) => f a log₁
  | (log₁, .err e) => (log₁, .err e)
  | (log₁, .panic p) => (log₁, .panic p)

instance : Monad Run where
  pure := Run.pure
  bind := Run.bind

/-- A result computed without any call. -/
def Run.lift {α : Type} (r : Result α) : Run α := fun log => (log, r)

/-- Make one call: it is appended to the log and returns what the
surroundings answer to it. -/
def call (env : Env) (c : Call) : Run Unit := fun log =>
  (log ++ [c], match env.answer log.length with
    | none => .ok ()
    | some e => .err e)

/-- Run `x` with `w.Close()` deferred: the close is made when `x` has ended,
however it ended, and its error is only logged (lines 73-77, 207-211). -/
def deferClose {α : Type} (env : Env) (x : Run α) : Run α := fun log =>
  match x log with
  | (log₁, r) => ((call env .Close log₁).1, r)

/-! ## The header (modelled from the spec) -/

/-- Modelled from the spec: the packet type `Connect`, first of the header
types §3 lists in order (`Connect|Disconnect|Event|Ack|Error|BinaryEvent|
BinaryAck`); the wire digit of a type is `'0' + type` and a binary variant is
its plain type plus 3 (§6). -/
abbrev Connect : Nat := 0

/-- Modelled from the spec: the packet type `Disconnect`. -/
abbrev Disconnect : Nat := 1

/-- Modelled from the spec: the packet type `Event`. -/
abbrev Event : Nat := 2

/-- Modelled from the spec: the packet type `Ack`. -/
abbrev Ack : Nat := 3

/-- Modelled from the spec: the packet type `Error`. -/
abbrev Error : Nat := 4

/-- Modelled from the spec: the packet type `binaryEvent`, `Event + 3`. -/
abbrev binaryEvent : Nat := 5

/-- Modelled from the spec: the packet type `binaryAck`, `Ack + 3`. -/
abbrev binaryAck : Nat := 6

/-- Modelled from the spec: the event envelope `Header` of §3, declared outside
`encoder.go`.  `Typ` is the field `Type` (a byte), `Namespace` the bytes of the
namespace string, `ID` a `uint64`. -/
structure Header where
  Typ : Nat
  Namespace : List Nat
  ID : Nat
  NeedAck : Bool
  deriving DecidableEq, Repr

/-! ## The encoder (`encoder.go`, lines 27-153 and 206-215) -/

/-- First loop of `writeUint64` (lines 140-143): `for i/base >= 10 { base *= 10 }`,
run for at most `fuel` rounds. -/
def writeUint64.base : Nat → Nat → Nat → Nat
  | 0, _, base => base
  | fuel + 1, i, base =>
    if i / base ≥ 10 then writeUint64.base fuel i (base * 10 % 2 ^ 64) else base

/-- Second loop of `writeUint64` (lines 144-151), run for at most `fuel`
rounds.  `p * base ≤ i`, so neither the product nor the difference wraps. -/
def writeUint64.digits (env : Env) : Nat → Nat → Nat → Run Unit
  | 0, _, _ => pure ()
  | fuel + 1, i, base =>
    if base > 0 then do
      let p := i / base
      call env (.WriteByte ((p % 256 + 48) % 256))
      writeUint64.digits env fuel (i - p * base) (base / 10)
    else pure ()

/-- `Encoder.writeUint64` with both loops bounded by `fuel` rounds. -/
def writeUint64With (fuel : Nat) (env : Env) (i : Nat) : Run Unit :=
  writeUint64.digits env fuel i (writeUint64.base fuel i 1)

/-- `Encoder.writeUint64`: a `uint64` has at most 20 decimal digits, so 20
rounds are enough for either loop (see `writeUint64_fuel`). -/
def writeUint64 (env : Env) (i : Nat) : Run Unit := writeUint64With 20 env i

/-- `reflect.ValueOf(args)` for the variadic `args []interface{}`: a slice of
interfaces; `none` is the nil slice of a call without arguments. -/
def valueOfArgs (args : Option (List Value)) : Value :=
  .slice ((args.getD []).map .iface)

/-- The elements of a slice value. -/
def sliceElems : Value → List Value
  | .slice elems => elems
  | _ => []

/-- Lines 90-92 of `writePacket`: the type put on the wire, `Event` and `Ack`
promoted by 3 when `n > 0` buffers were found. -/
def writePacket.typ (h : Header) (n : Nat) : Nat :=
  if n > 0 ∧ (h.Typ = Event ∨ h.Typ = Ack) then (h.Typ + 3) % 256 else h.Typ

/-- Lines 98-105 of `writePacket`: for a binary type, the counter and `'-'`. -/
def writePacket.count (env : Env) (typ max : Nat) : Run Unit :=
  if typ = binaryAck ∨ typ = binaryEvent then do
    writeUint64 env max
    call env (.WriteByte 45)
  else pure ()

/-- Lines 107-116 of `writePacket`: the namespace and the `','` after it. -/
def writePacket.ns (env : Env) (h : Header) (args : Option (List Value)) : Run Unit :=
  if h.Namespace ≠ [] then do
    call env (.Write h.Namespace)
    if h.ID ≠ 0 ∨ args.isSome then
      call env (.WriteByte 44)
    else pure ()
  else pure ()

/-- Lines 118-122 of `writePacket`: the id. -/
def writePacket.id (env : Env) (h : Header) : Run Unit :=
  if h.NeedAck then writeUint64 env h.ID else pure ()

/-- Lines 124-128 of `writePacket`, `args` being the stamped arguments:
`json.NewEncoder(bw).Encode(args[0])` marshals the first argument and, when
that succeeds, writes the bytes followed by a newline with one `Write`. -/
def writePacket.json (env : Env) (args : List Value) : Run Unit :=
  match args with
  | [] => pure ()
  | arg0 :: _ =>
    match env.json arg0 with
    | .error e => Run.lift (.err e)
    | .ok p => call env (.Write (p ++ [10]))

/-- Lines 130-134 of `writePacket`: the flush, when `bw` has one. -/
def writePacket.flush (env : Env) : Run Unit :=
  if env.flusher then call env .Flush else pure ()

/-- Lines 107-136 of `writePacket`, after the walk `w`: `args` was stamped in
place by the walker, so line 125 marshals the stamped first argument. -/
def writePacket.rest (env : Env) (h : Header) (args : Option (List Value))
    (w : Walk Value) : Run (List (List Nat)) := do
  writePacket.ns env h args
  writePacket.id env h
  writePacket.json env (sliceElems w.val)
  writePacket.flush env
  pure w.ret

/-- The body of `Encoder.writePacket` (lines 79-136): `buffers` is `w.ret` and
`max` is `w.index`. -/
def writePacketBody (env : Env) (h : Header) (args : Option (List Value)) :
    Run (List (List Nat)) := do
  let w ← Run.lift (attachBuffer (valueOfArgs args) Flag.ofValueOf 0)
  let typ := writePacket.typ h w.ret.length
  call env (.WriteByte ((typ + 48) % 256))
  writePacket.count env typ w.index
  writePacket.rest env h args w

/-- `Encoder.writePacket`: the body with the close of the text frame deferred. -/
def writePacket (env : Env) (h : Header) (args : Option (List Value)) :
    Run (List (List Nat)) :=
  deferClose env (writePacketBody env h args)

/-- `Encoder.writeBuffer` (lines 206-215). -/
def writeBuffer (env : Env) (buffer : List Nat) : Run Unit :=
  deferClose env (call env (.Write buffer))

/-- The loop of `Encoder.Encode` over the buffers (lines 44-58). -/
def Encode.loop (env : Env) : List (List Nat) → Run Unit
  | [] => pure ()
  | b :: rest => do
    call env (.NextWriter .BINARY)
    writeBuffer env b
    Encode.loop env rest

/-- `Encoder.Encode` (lines 27-61). -/
def Encode (env : Env) (h : Header) (args : Option (List Value)) : Run Unit := do
  call env (.NextWriter .TEXT)
  let buffers ← writePacket env h args
  Encode.loop env buffers

/-! ## Notions used in the statements -/

/-- A struct met by the walker that lines 163-171 can stamp: addressable, not
reached through an unexported field, and really a `parser.Buffer`. -/
def Met.good (m : Met) : Bool :=
  m.1.addr && !m.1.stickyRO && !m.1.embedRO && m.2.isSome

/-- The placeholder `b` once stamped with index `k` (lines 168-169). -/
def stamp (k : Nat) (b : Buffer) : Buffer := { b with num := k, isBinary := true }

/-- The `k + 1` decimal digits of `i < 10 ^ (k + 1)`, most significant first. -/
def bigEndian : Nat → Nat → List Nat
  | 0, i => [i]
  | k + 1, i => i / 10 ^ (k + 1) :: bigEndian k (i % 10 ^ (k + 1))

/-- The canonical decimal representation of `n` in ASCII: its digits, most
significant first, without leading zero, and `"0"` for zero. -/
def decimal (n : Nat) : List Nat :=
  if n = 0 then [48] else (Nat.digits 10 n).reverse.map (· + 48)

/-- Abort on the first failed call: in every run of `x`, a call other than
`Close` that the surroundings answer with an error `e` makes the run end with
exactly `e`, and the only calls made after it are `Close` calls. -/
def Aborts (env : Env) {α : Type} (x : Run α) : Prop :=
  ∀ log : Log, ∃ new : List Call, (x log).1 = log ++ new ∧
    ∀ k e, k < new.length → env.answer (log.length + k) = some e → new[k]? ≠ some .Close →
      (x log).2 = .err e ∧ ∀ j, k < j → j < new.length → new[j]? = some .Close

/-- The calls of `writePacket.count` when none fails. -/
def countCalls (typ max : Nat) : List Call :=
  if typ = binaryAck ∨ typ = binaryEvent then (decimal max).map .WriteByte ++ [.WriteByte 45]
  else []

/-- The calls of `writePacket.ns` when none fails. -/
def nsCalls (h : Header) (args : Option (List Value)) : List Call :=
  if h.Namespace ≠ [] then
    .Write h.Namespace :: (if h.ID ≠ 0 ∨ args.isSome then [.WriteByte 44] else [])
  else []

/-- The calls of `writePacket.id` when none fails. -/
def idCalls (h : Header) : List Call :=
  if h.NeedAck then (decimal h.ID).map .WriteByte else []

/-- The call of `writePacket.json`, made when the first argument marshals. -/
def jsonCalls (env : Env) (args : List Value) : List Call :=
  match args with
  | [] => []
  | arg0 :: _ =>
    match env.json arg0 with
    | .error _ => []
    | .ok p => [.Write (p ++ [10])]

/-- The error of marshalling the first argument, if there is one. -/
def jsonError (env : Env) (args : List Value) : Option Err :=
  match args with
  | [] => none
  | arg0 :: _ =>
    match env.json arg0 with
    | .error e => some e
    | .ok _ => none

/-- The calls of `writePacket.flush` when none fails. -/
def flushCalls (env : Env) : List Call :=
  if env.flusher then [.Flush] else []

/-- The calls of `writePacket.rest` when none fails: a marshalling error
returns before the flush. -/
def restCalls (env : Env) (h : Header) (args : Option (List Value)) (w : Walk Value) :
    List Call :=
  nsCalls h args ++ idCalls h ++ jsonCalls env (sliceElems w.val) ++
    (match jsonError env (sliceElems w.val) with
    | none => flushCalls env
    | some _ => [])

/-- The calls `Encode` makes for one buffer: a binary frame with the buffer as
its only write. -/
def frameCalls (b : List Nat) : List Call :=
  [.NextWriter .BINARY, .Write b, .Close]

/-- The calls `writePacket` makes on the text frame before closing it, when
none fails and the walk gave `w`: type digit, count segment, then the rest. -/
def textCalls (env : Env) (h : Header) (args : Option (List Value)) (w : Walk Value) :
    List Call :=
  .WriteByte ((writePacket.typ h w.ret.length + 48) % 256) ::
    (countCalls (writePacket.typ h w.ret.length) w.index ++ restCalls env h args w)

/-- The frames requested from the `FrameWriter` by a list of calls, in order. -/
def requested (calls : List Call) : List FrameType :=
  calls.filterMap fun c =>
    match c with
    | .NextWriter ft => some ft
    | _ => none

/-! ## Example inputs -/

/-- Surroundings in which no call fails, `bw` has no `Flush`, and every value
marshals to the JSON text `[]`. -/
def okEnv : Env := ⟨fun _ => none, false, fun _ => .ok [91, 93]⟩

/-- A placeholder with data `[1]`, not yet stamped. -/
def bufA : Buffer := ⟨[1], false, 0⟩

/-- A placeholder with data `[2]`, not yet stamped. -/
def bufB : Buffer := ⟨[2], false, 0⟩

/-- A placeholder with data `[3]`, not yet stamped. -/
def bufC : Buffer := ⟨[3], false, 0⟩

/-- The arguments `[A, [B, C]]` of the spec's example as `reflect.ValueOf(args)`
sees them: `Encode(h, &A, []Buffer{B, C})`. -/
def exampleABC : Value :=
  .slice [.iface (.ptr (.buffer bufA)), .iface (.slice [.buffer bufB, .buffer bufC])]

/-- A placeholder passed by value, `Encode(h, Buffer{Data: [1]})`, as
`reflect.ValueOf(args)` sees it: the copy boxed in the interface is not
addressable. -/
def exampleByValue : Value := .slice [.iface (.buffer bufA)]

/-- Surroundings in which no call fails and the JSON encoder rejects a channel
(`json: unsupported type`), as `encoding/json` does. -/
def chanEnv : Env :=
  ⟨fun _ => none, false, fun v =>
    match v with
    | .iface (.scalar s) => if s = "chan" then .error (.other 0) else .ok [91, 93]
    | _ => .ok [91, 93]⟩

/-- Surroundings in which the call number 4 of the run fails with error 7 and
no other call fails. -/
def failEnv : Env :=
  ⟨fun k => if k = 4 then some (.other 7) else none, false, fun _ => .ok [91, 93]⟩

/-- The map `{"a": &A, "b": &B}` with `MapKeys` returning `a` before `b`. -/
def mapAB : List (String × Value) := [("a", .ptr (.buffer bufA)), ("b", .ptr (.buffer bufB))]

/-- The same map with `MapKeys` returning `b` before `a`. -/
def mapBA : List (String × Value) := [("b", .ptr (.buffer bufB)), ("a", .ptr (.buffer bufA))]

/-! ## The websocket transport (`engineio/transport/websocket/transport.go`) -/

/-- The query parameters `url.Values`: the values bound to each key. -/
abbrev Values := String → List String

/-- `url.Values.Set`: the key is bound to the single value, replacing what was
bound to it. -/
def Values.Set (q : Values) (key value : String) : Values :=
  fun k => if k = key then [value] else q k

/-- `url.Values.Get`: the first value bound to the key, or the empty string. -/
def Values.Get (q : Values) (key : String) : String :=
  (q key).head?.getD ""

/-- A `url.URL` as far as `Dial` looks at it: the scheme, the query parameters
its `RawQuery` stands for (`u.Query()` parses them, `query.Encode()` writes
them back), and the rest (host, path, ...) untouched. -/
structure URL where
  Scheme : String
  Rest : String
  Query : Values

/-- `Transport.Name` (lines 42-44). -/
def Transport.Name : String := "websocket"

/-- Lines 58-69 of `Transport.Dial`: the URL handed to the websocket dialer;
`timestamp` is the string `utils.Timestamp()` returns (declared outside the
given sources). -/
def Transport.dialURL (timestamp : String) (u : URL) : URL :=
  let scheme :=
    if u.Scheme = "http" then "ws"
    else if u.Scheme = "https" then "wss"
    else u.Scheme
  let query := (u.Query.Set "transport" Transport.Name).Set "t" timestamp
  { u with Scheme := scheme, Query := query }

/-- The `DialError` of lines 16-22: the error of the handshake with the HTTP
response of the server. -/
structure DialError (R : Type) where
  Response : Option R
  error : Err

/-- What `dialer.Dial` of the websocket library returns: the connection, the
HTTP response and the error. -/
structure Handshake (Socket Response : Type) where
  c : Option Socket
  resp : Option Response
  err : Option Err

/-- The `Conn` built by `newConn(c, *u, resp.Header)` on line 78; `resp` stands
for the response whose header it is given. -/
structure Conn (Socket Response : Type) where
  c : Option Socket
  url : URL
  resp : Response

/-- What `Transport.Dial` ends with: a connection and a nil error, no
connection and a `DialError`, or the panic of `resp.Header` on a nil `resp`
(line 78). -/
inductive DialResult (Socket Response : Type) where
  | conn (c : Conn Socket Response)
  | dialError (e : DialError Response)
  | nilDereference

/-- Lines 71-78 of `Transport.Dial`: what is made of the handshake `r` for the
dialed URL `u₁`. -/
def Transport.finish {Socket Response : Type} (u₁ : URL) (r : Handshake Socket Response) :
    DialResult Socket Response :=
  match r.err with
  | some e => .dialError ⟨r.resp, e⟩
  | none =>
    match r.resp with
    | none => .nilDereference
    | some resp => .conn ⟨r.c, u₁, resp⟩

/-- `Transport.Dial` (lines 47-79); `dialer` is the handshake of the websocket
library, an external collaborator. -/
def Transport.Dial {Socket Response ReqHeader : Type}
    (dialer : URL → ReqHeader → Handshake Socket Response) (timestamp : String) (u : URL)
    (requestHeader : ReqHeader) : DialResult Socket Response :=
  Transport.finish (Transport.dialURL timestamp u)
    (dialer (Transport.dialURL timestamp u) requestHeader)

/-! ## The frames on the wire and the decoder (modelled from the spec) -/

/-- The bytes written by a list of calls, in order. -/
def written : List Call → List Nat
  | [] => []
  | .WriteByte c :: rest => c :: written rest
  | .Write p :: rest => p ++ written rest
  | _ :: rest => written rest

/-- The payload of the frame being written: the bytes of the calls up to the
next `NextWriter`. -/
def payload : List Call → List Nat
  | [] => []
  | .NextWriter _ :: _ => []
  | .WriteByte c :: rest => c :: payload rest
  | .Write p :: rest => p ++ payload rest
  | _ :: rest => payload rest

/-- The frames a list of calls (none of which failed) puts on the wire: one
per `NextWriter`, with the bytes written before the next one. -/
def framesOf : List Call → List (FrameType × List Nat)
  | [] => []
  | .NextWriter ft :: rest => (ft, payload rest) :: framesOf rest
  | _ :: rest => framesOf rest

mutual
/-- Modelled from the spec: the JSON body carries each placeholder as a marker
with its assigned index "rather than raw bytes" (§4.4 step 3); `erase v` is `v`
as the body describes it, every placeholder without its data. -/
def erase (v : Value) : Value :=
  match v with
  | .ptr e => .ptr (erase e)
  | .iface e => .iface (erase e)
  | .buffer b => .buffer { b with Data := [] }
  | .struct name fields => .struct name (eraseFields fields)
  | .array elems => .array (eraseElems elems)
  | .slice elems => .slice (eraseElems elems)
  | .map entries => .map (eraseEntries entries)
  | .invalid => .invalid
  | .scalar p => .scalar p
/-- Modelled from the spec: `erase` on the fields of a struct. -/
def eraseFields (fields : List (FieldKind × Value)) : List (FieldKind × Value) :=
  match fields with
  | [] => []
  | (k, v) :: rest => (k, erase v) :: eraseFields rest
/-- Modelled from the spec: `erase` on the elements of a sequence. -/
def eraseElems (elems : List Value) : List Value :=
  match elems with
  | [] => []
  | v :: rest => erase v :: eraseElems rest
/-- Modelled from the spec: `erase` on the entries of a map. -/
def eraseEntries (entries : List (String × Value)) : List (String × Value) :=
  match entries with
  | [] => []
  | (k, v) :: rest => (k, erase v) :: eraseEntries rest
end

mutual
/-- Modelled from the spec: the decoder is not among the given sources; §4.4
has it "splice each [binary frame] into the placeholder bearing the matching
index" and §3 "reassign `data` into the placeholder at the matching index".
`splice frames v` does so for every placeholder of `v`, and fails when a
placeholder bears an index without a frame. -/
def splice (frames : List (List Nat)) (v : Value) : Option Value :=
  match v with
  | .ptr e => (splice frames e).map .ptr
  | .iface e => (splice frames e).map .iface
  | .buffer b => (frames[b.num]?).map fun d => .buffer { b with Data := d }
  | .struct name fields => (spliceFields frames fields).map (.struct name)
  | .array elems => (spliceElems frames elems).map .array
  | .slice elems => (spliceElems frames elems).map .slice
  | .map entries => (spliceEntries frames entries).map .map
  | .invalid => some .invalid
  | .scalar p => some (.scalar p)
/-- Modelled from the spec: `splice` on the fields of a struct. -/
def spliceFields (frames : List (List Nat)) (fields : List (FieldKind × Value)) :
    Option (List (FieldKind × Value)) :=
  match fields with
  | [] => some []
  | (k, v) :: rest =>
    (splice frames v).bind fun v₁ => (spliceFields frames rest).map fun r => (k, v₁) :: r
/-- Modelled from the spec: `splice` on the elements of a sequence. -/
def spliceElems (frames : List (List Nat)) (elems : List Value) : Option (List Value) :=
  match elems with
  | [] => some []
  | v :: rest =>
    (splice frames v).bind fun v₁ => (spliceElems frames rest).map fun r => v₁ :: r
/-- Modelled from the spec: `splice` on the entries of a map. -/
def spliceEntries (frames : List (List Nat)) (entries : List (String × Value)) :
    Option (List (String × Value)) :=
  match entries with
  | [] => some []
  | (k, v) :: rest =>
    (splice frames v).bind fun v₁ => (spliceEntries frames rest).map fun r => (k, v₁) :: r
end

/-- Modelled from the spec: reading a decimal number ("parse the leading
digits", "decimal count", "decimal id" of §4.4 and §6): the value of the
leading decimal digits after `acc`, and the bytes after them. -/
def parseUint (acc : Nat) : List Nat → Nat × List Nat
  | [] => (acc, [])
  | c :: rest =>
    if 48 ≤ c ∧ c ≤ 57 then parseUint (acc * 10 + (c - 48)) rest else (acc, c :: rest)

/-- Modelled from the spec: reading the namespace of `'<namespace>,'` (§6): the
bytes up to the first `','`, and the bytes after that `','`. -/
def parseNamespace : List Nat → List Nat × List Nat
  | [] => ([], [])
  | c :: rest =>
    if c = 44 then ([], rest)
    else ((c :: (parseNamespace rest).1), (parseNamespace rest).2)

/-- Whether a text starts with a decimal digit. -/
def startsWithDigit : List Nat → Bool
  | [] => false
  | c :: _ => decide (48 ≤ c ∧ c ≤ 57)

/-- Modelled from the spec: the decoder is not among the given sources.  §4.4:
"parse the leading digits to recover packet type and (if binary-variant)
expected buffer count; parse optional namespace, id, and the JSON body; collect
exactly the expected number of subsequent binary frames and splice each into
the placeholder bearing the matching index.  Fewer binary frames than declared
before the reader is exhausted is a decode error."  The wire format is that of
§6.  The spec does not say how the decoder tells whether a namespace is
present: that rule is the parameter `hasNamespace`, asked on the text after the
count segment.  An id is the run of decimal digits the text goes on with, if
any (`'<decimal id>' if needAck`).  `unmarshal` is the JSON decoder, an external
primitive.  The result is the header and the argument value, `none` for a text
without body. -/
def Decode (hasNamespace : List Nat → Bool) (unmarshal : List Nat → Option Value)
    (frames : List (FrameType × List Nat)) : Option (Header × Option Value) :=
  match frames with
  | (.TEXT, d :: r₀) :: rest =>
    if 48 ≤ d ∧ d ≤ 54 then
      let typ := d - 48
      let cnt : Option (Nat × List Nat) :=
        if typ = binaryEvent ∨ typ = binaryAck then
          match parseUint 0 r₀ with
          | (n, 45 :: r) => some (n, r)
          | _ => none
        else some (0, r₀)
      cnt.bind fun (count, r₁) =>
        let ns := if hasNamespace r₁ then parseNamespace r₁ else ([], r₁)
        let id := if startsWithDigit ns.2 then parseUint 0 ns.2 else (0, ns.2)
        let header : Header := ⟨typ, ns.1, id.1, startsWithDigit ns.2⟩
        if rest.length < count ∨ ¬ ((rest.take count).all fun f => f.1 = .BINARY) then none
        else
          match id.2 with
          | [] => some (header, none)
          | body =>
            (unmarshal body).bind fun v =>
              (splice ((rest.take count).map Prod.snd) v).map fun v₁ => (header, some v₁)
    else none
  | _ => none

/-- The rule of Socket.IO for the examples: a namespace starts with `'/'`. -/
def slashRule (text : List Nat) : Bool := text.head? = some 47

/-- Surroundings in which no call fails, `bw` has no `Flush`, and a scalar
marshals to the bytes of its payload (so `scalar "15"` is the number 15 and
`scalar "[1]"` an array), every other value to `[]`. -/
def textEnv : Env :=
  ⟨fun _ => none, false, fun v =>
    match v with
    | .iface (.scalar s) => .ok (s.toList.map Char.toNat)
    | _ => .ok [91, 93]⟩

/-- A JSON decoder for the examples: it knows the text `[]` followed by a
newline, which it decodes to `v`. -/
def toyUnmarshal (v : Value) (body : List Nat) : Option Value :=
  if body = [91, 93, 10] then some v else none

/-- A handshake of the websocket library that fails with error 3 and the HTTP
response 403, whatever the URL. -/
def refusingDialer (_ : URL) (_ : Unit) : Handshake Nat Nat := ⟨none, some 403, some (.other 3)⟩

/-- A handshake of the websocket library that succeeds with the socket 1 and
the HTTP response 101, whatever the URL. -/
def acceptingDialer (_ : URL) (_ : Unit) : Handshake Nat Nat := ⟨some 1, some 101, none⟩

/-- A URL for the examples: `https://host/socket.io/?transport=polling`. -/
def exampleURL : URL := ⟨"https", "host/socket.io/", fun k => if k = "transport" then ["polling"] else []⟩

/-- Surroundings in which no call fails, `bw` has no `Flush`, a string
marshals to `"x"` and every other value to `[]`: the body tells which argument
was marshalled. -/
def tagEnv : Env :=
  ⟨fun _ => none, false, fun v =>
    match v with
    | .iface (.scalar _) => .ok [34, 120, 34]
    | _ => .ok [91, 93]⟩

/-- The struct `bytes.Buffer` of the standard library: a struct type named
`Buffer` that is not `parser.Buffer`, with its three unexported fields `buf`,
`off` and `lastRead`. -/
def bytesBuffer : Value :=
  .struct "Buffer" [(.unexported, .slice []), (.unexported, .scalar "0"),
    (.unexported, .scalar "0")]

/-- Modelled from the spec: the buffer count a text frame declares (§6,
`<digit>['<decimal count>-' if binary variant]...`): the decimal number after
the type digit when that digit is a binary variant, and 0 when the frame has
no count segment. -/
def declaredCount : List Nat → Nat
  | [] => 0
  | d :: rest => if d = 48 + binaryEvent ∨ d = 48 + binaryAck then (parseUint 0 rest).1 else 0

/-- The surroundings `env` with every call answered `nil`; marshalling and the
`Flush` method are those of `env`. -/
def quiet (env : Env) : Env := { env with answer := fun _ => none }

/-- The run `x` ignores the errors of `Close`: with `x₀` the same piece of code
in surroundings that answer `nil` to everything, whenever the surroundings of
`x` answer `nil` to every call of `x₀` other than a `Close`, `x` makes the same
calls and ends with the same result as `x₀`. -/
def IgnoresClose (env : Env) {α : Type} (x x₀ : Run α) : Prop :=
  ∀ log : Log, ∃ new : List Call, (x₀ log).1 = log ++ new ∧
    ((∀ k, k < new.length → new[k]? ≠ some .Close → env.answer (log.length + k) = none) →
      x log = x₀ log)

/-- Surroundings in which the calls number 5 and 8 of the run fail with error
9 and no other call fails. -/
def closeErrEnv : Env :=
  ⟨fun k => if k = 5 ∨ k = 8 then some (.other 9) else none, false, fun _ => .ok [91, 93]⟩

/-! ## The polling transport (modelled from the spec) -/

/-- Modelled from the spec: the packet types of §3, `Open|Close|Ping|Pong|
Message|Upgrade|NoOp`; package `packet` is declared outside the given sources. -/
inductive PacketType where
  | OPEN
  | CLOSE
  | PING
  | PONG
  | MESSAGE
  | UPGRADE
  | NOOP
  deriving DecidableEq, Repr

/-- Modelled from the spec: the "ASCII digit per type" of §4.1, in the order of
§3. -/
def PacketType.digit : PacketType → Nat
  | .OPEN => 48
  | .CLOSE => 49
  | .PING => 50
  | .PONG => 51
  | .MESSAGE => 52
  | .UPGRADE => 53
  | .NOOP => 54

/-- A packet as the polling test writes and reads it: frame kind, packet type
and payload (`ft`, `pt`, `data` of the table in `polling_test.go`, lines
20-28). -/
structure Packet where
  ft : FrameType
  pt : PacketType
  data : List Nat
  deriving DecidableEq, Repr

/-- A frame: "a byte payload tagged as text or binary" (§3). -/
abbrev Frame := FrameType × List Nat

/-- Modelled from the spec: the packet layer of §4.1, `Encode(packet) -> Frame`:
"the packet type occupies the first byte of the frame payload (ASCII digit per
type); remaining bytes are the packet's own payload". -/
def Packet.encode (p : Packet) : Frame := (p.ft, p.pt.digit :: p.data)

/-- The kinds of segment of a polling body (§6): text, binary with raw bytes,
and binary re-encoded as base64 text. -/
inductive SegmentKind where
  | text
  | binary
  | base64
  deriving DecidableEq, Repr

/-- What the spec leaves open in the polling wire format (§6): the byte that
marks each kind of segment, and the base64 codec of the standard library. -/
structure Wire where
  marker : SegmentKind → Nat
  b64encode : List Nat → List Nat
  b64decode : List Nat → List Nat

/-- Modelled from the spec: one direction of a polling connection (§3 "polling
session state", §4.2, §5).  On the writing side: the frames written and "not
yet drained to a pending read-request", whether a read request is held open
"awaiting data", and whether `Close` was called.  On the peer's side: the
frames of the bodies received and not yet handed to `NextReader`, and the
packets `NextReader` returned so far. -/
structure Link where
  queue : List Frame
  held : Bool
  closed : Bool
  inbox : List Frame
  delivered : List Packet

/-- The state of an open link in which the packets `pending` are under way:
their frames are those received and not yet read followed by those queued, and
nothing is queued while a read request is held. -/
def Link.Carries (s : Link) (pending : List Packet) : Prop :=
  s.closed = false ∧ (s.held = true → s.queue = []) ∧
    s.inbox ++ s.queue = pending.map Packet.encode

@[simp] theorem Result.bind_ok {α β : Type} (a : α) (f : α → Result β) :
    (Result.ok a).bind f = f a := rfl

@[simp] theorem Result.bind_err {α β : Type} (e : Err) (f : α → Result β) :
    (Result.err e : Result α).bind f = .err e := rfl

@[simp] theorem Result.bind_panic {α β : Type} (p : Panic) (f : α → Result β) :
    (Result.panic p : Result α).bind f = .panic p := rfl

theorem scan_append (l₁ l₂ : List Met) (idx : Nat) :
    scan (l₁ ++ l₂) idx =
      (scan l₁ idx).bind fun w₁ => (scan l₂ w₁.index).bind fun w₂ =>
        .ok ⟨w₁.val ++ w₂.val, w₁.ret ++ w₂.ret, w₂.index⟩ := by
  induction l₁ generalizing idx with
  | nil =>
    simp only [List.nil_append, scan, Result.bind_ok]
    cases scan l₂ idx <;> rfl
  | cons m rest ih =>
    obtain ⟨fl, ob⟩ := m
    show scan ((fl, ob) :: (rest ++ l₂)) idx = _
    by_cases ha : (!fl.addr) = true
    · simp [scan, ha]
    · by_cases hr : (fl.stickyRO || fl.embedRO) = true
      · simp [scan, ha, hr]
      · cases ob with
        | none => simp [scan, ha, hr]
        | some b =>
          simp only [scan, ha, hr, if_false]
          rw [ih]
          cases scan rest ((idx + 1) % 2 ^ 64) with
          | ok w₁ =>
            simp only [Result.bind_ok]
            cases h : scan l₂ w₁.index <;> simp [h]
          | err e => rfl
          | panic p => rfl

mutual
theorem attachBuffer_scan : ∀ (v : Value) (fl : Flag) (idx : Nat),
    ((attachBuffer v fl idx).bind fun w => .ok ⟨met w.val fl, w.ret, w.index⟩) =
      scan (met v fl) idx
  | .ptr e, fl, idx => by
    have ih := attachBuffer_scan e fl.ptrElem idx
    simp only [attachBuffer, met]
    rw [← ih]
    cases attachBuffer e fl.ptrElem idx <;> simp [met]
  | .iface e, fl, idx => by
    have ih := attachBuffer_scan e fl.ifaceElem idx
    simp only [attachBuffer, met]
    rw [← ih]
    cases attachBuffer e fl.ifaceElem idx <;> simp [met]
  | .buffer b, fl, idx => by
    simp only [attachBuffer, met, scan]
    split
    · rfl
    · split <;> simp [met]
  | .struct name fields, fl, idx => by
    have ih := attachFields_scan fields fl idx
    simp only [attachBuffer, met]
    by_cases hn : name = bufferTypeName
    · simp only [hn, if_true, scan]
      split
      · rfl
      · split <;> rfl
    · simp only [hn, if_false]
      rw [← ih]
      cases attachFields fields fl idx <;> simp [met, hn]
  | .array elems, fl, idx => by
    have ih := attachElems_scan elems fl.arrayIndex idx
    simp only [attachBuffer, met]
    rw [← ih]
    cases attachElems elems fl.arrayIndex idx <;> simp [met]
  | .slice elems, fl, idx => by
    have ih := attachElems_scan elems fl.sliceIndex idx
    simp only [attachBuffer, met]
    rw [← ih]
    cases attachElems elems fl.sliceIndex idx <;> simp [met]
  | .map entries, fl, idx => by
    have ih := attachEntries_scan entries fl.mapIndex idx
    simp only [attachBuffer, met]
    rw [← ih]
    cases attachEntries entries fl.mapIndex idx <;> simp [met]
  | .invalid, fl, idx => by simp [attachBuffer, met, scan]
  | .scalar p, fl, idx => by simp [attachBuffer, met, scan]
theorem attachFields_scan : ∀ (fields : List (FieldKind × Value)) (fl : Flag) (idx : Nat),
    ((attachFields fields fl idx).bind fun w => .ok ⟨metFields w.val fl, w.ret, w.index⟩) =
      scan (metFields fields fl) idx
  | [], fl, idx => by simp [attachFields, metFields, scan]
  | (k, v) :: rest, fl, idx => by
    have ih₁ := attachBuffer_scan v (fl.field k) idx
    simp only [attachFields, metFields, scan_append]
    rw [← ih₁]
    cases h : attachBuffer v (fl.field k) idx with
    | ok w =>
      have ih₂ := attachFields_scan rest fl w.index
      simp only [Result.bind_ok]
      rw [← ih₂]
      cases attachFields rest fl w.index <;> simp [metFields]
    | err e => rfl
    | panic p => rfl
theorem attachElems_scan : ∀ (elems : List Value) (efl : Flag) (idx : Nat),
    ((attachElems elems efl idx).bind fun w => .ok ⟨metElems w.val efl, w.ret, w.index⟩) =
      scan (metElems elems efl) idx
  | [], efl, idx => by simp [attachElems, metElems, scan]
  | v :: rest, efl, idx => by
    have ih₁ := attachBuffer_scan v efl idx
    simp only [attachElems, metElems, scan_append]
    rw [← ih₁]
    cases h : attachBuffer v efl idx with
    | ok w =>
      have ih₂ := attachElems_scan rest efl w.index
      simp only [Result.bind_ok]
      rw [← ih₂]
      cases attachElems rest efl w.index <;> simp [metElems]
    | err e => rfl
    | panic p => rfl
theorem attachEntries_scan : ∀ (entries : List (String × Value)) (efl : Flag) (idx : Nat),
    ((attachEntries entries efl idx).bind fun w => .ok ⟨metEntries w.val efl, w.ret, w.index⟩) =
      scan (metEntries entries efl) idx
  | [], efl, idx => by simp [attachEntries, metEntries, scan]
  | (k, v) :: rest, efl, idx => by
    have ih₁ := attachBuffer_scan v efl idx
    simp only [attachEntries, metEntries, scan_append]
    rw [← ih₁]
    cases h : attachBuffer v efl idx with
    | ok w =>
      have ih₂ := attachEntries_scan rest efl w.index
      simp only [Result.bind_ok]
      rw [← ih₂]
      cases attachEntries rest efl w.index <;> simp [metEntries]
    | err e => rfl
    | panic p => rfl
end

theorem scan_cons_ok (fl : Flag) (ob : Option Buffer) (rest : List Met) (idx : Nat)
    (w : Walk (List Met)) (h : scan ((fl, ob) :: rest) idx = .ok w) :
    Met.good (fl, ob) = true ∧ ∃ b ws, ob = some b ∧ scan rest ((idx + 1) % 2 ^ 64) = .ok ws ∧
      w = ⟨(fl, some (stamp idx b)) :: ws.val, b.Data :: ws.ret, ws.index⟩ := by
  by_cases ha : (!fl.addr) = true
  · simp [scan, ha] at h
  · by_cases hr : (fl.stickyRO || fl.embedRO) = true
    · simp [scan, ha, hr] at h
    · cases ob with
      | none => simp [scan, ha, hr] at h
      | some b =>
        simp only [scan, ha, hr, if_false] at h
        cases hs : scan rest ((idx + 1) % 2 ^ 64) with
        | ok ws =>
          rw [hs] at h
          simp at h
          refine ⟨?_, b, ws, rfl, rfl, ?_⟩
          · simp at ha hr
            simp [Met.good, ha, hr]
          · rw [← h]; rfl
        | err e => rw [hs] at h; simp at h
        | panic p => rw [hs] at h; simp at h

theorem scan_ok (l : List Met) : ∀ (idx : Nat) (w : Walk (List Met)), scan l idx = .ok w →
    (∀ m ∈ l, m.good = true) ∧ w.ret = (l.filterMap Prod.snd).map Buffer.Data ∧
    (l.filterMap Prod.snd).length = l.length ∧
    (idx + l.length < 2 ^ 64 → w.index = idx + l.length ∧
      w.val.filterMap Prod.snd =
        List.zipWith stamp (List.range' idx l.length) (l.filterMap Prod.snd)) := by
  induction l with
  | nil =>
    intro idx w h
    simp only [scan, Result.ok.injEq] at h
    subst h
    simp
  | cons m rest ih =>
    intro idx w h
    obtain ⟨fl, ob⟩ := m
    obtain ⟨hg, b, ws, rfl, hs, rfl⟩ := scan_cons_ok fl ob rest idx w h
    obtain ⟨ih₁, ih₂, ih₃, ih₄⟩ := ih _ ws hs
    refine ⟨?_, ?_, ?_, ?_⟩
    · intro m hm
      rcases List.mem_cons.mp hm with rfl | hm
      · exact hg
      · exact ih₁ m hm
    · simp [ih₂]
    · simp [ih₃]
    · intro hlen
      simp only [List.length_cons] at hlen
      have hmod : (idx + 1) % 2 ^ 64 = idx + 1 := Nat.mod_eq_of_lt (by omega)
      rw [hmod] at ih₄
      obtain ⟨hi, hv⟩ := ih₄ (by omega)
      refine ⟨by simp [hi]; omega, ?_⟩
      simp [hv, List.range'_succ]

theorem scan_good (l : List Met) : ∀ (idx : Nat), (∀ m ∈ l, m.good = true) →
    ∃ w, scan l idx = .ok w := by
  induction l with
  | nil => intro idx _; exact ⟨_, rfl⟩
  | cons m rest ih =>
    intro idx hg
    obtain ⟨fl, ob⟩ := m
    have hm := hg (fl, ob) (List.mem_cons_self _ _)
    obtain ⟨ws, hs⟩ := ih ((idx + 1) % 2 ^ 64) (fun m hm => hg m (List.mem_cons_of_mem _ hm))
    simp only [Met.good, Bool.and_eq_true, Bool.not_eq_true', Option.isSome_iff_exists] at hm
    obtain ⟨⟨⟨ha, hs₁⟩, hs₂⟩, b, rfl⟩ := hm
    exact ⟨⟨(fl, some (stamp idx b)) :: ws.val, b.Data :: ws.ret, ws.index⟩,
      by simp [scan, ha, hs₁, hs₂, hs, stamp, -Nat.reducePow]⟩

theorem scan_unaddressable (l₁ l₂ : List Met) (fl : Flag) (ob : Option Buffer)
    (hg : ∀ m ∈ l₁, m.good = true) (ha : fl.addr = false) :
    ∀ (idx : Nat), scan (l₁ ++ (fl, ob) :: l₂) idx = .err .errFailedBufferAddress := by
  intro idx
  obtain ⟨w, hw⟩ := scan_good l₁ idx hg
  rw [scan_append, hw]
  simp [scan, ha]

theorem attachBuffer_ok_scan {v : Value} {fl : Flag} {idx : Nat} {w : Walk Value}
    (h : attachBuffer v fl idx = .ok w) :
    scan (met v fl) idx = .ok ⟨met w.val fl, w.ret, w.index⟩ := by
  rw [← attachBuffer_scan, h]
  rfl

theorem attachBuffer_of_scan_ok {v : Value} {fl : Flag} {idx : Nat} {s : Walk (List Met)}
    (h : scan (met v fl) idx = .ok s) :
    ∃ w, attachBuffer v fl idx = .ok w ∧ s = ⟨met w.val fl, w.ret, w.index⟩ := by
  rw [← attachBuffer_scan] at h
  cases hw : attachBuffer v fl idx with
  | ok w =>
    rw [hw] at h
    simp only [Result.bind_ok, Result.ok.injEq] at h
    exact ⟨w, rfl, h.symm⟩
  | err e => rw [hw] at h; simp at h
  | panic p => rw [hw] at h; simp at h

theorem attachBuffer_of_scan_err {v : Value} {fl : Flag} {idx : Nat} {e : Err}
    (h : scan (met v fl) idx = .err e) : attachBuffer v fl idx = .err e := by
  rw [← attachBuffer_scan] at h
  cases hw : attachBuffer v fl idx with
  | ok w => rw [hw] at h; simp at h
  | err e₁ =>
    rw [hw] at h
    simp only [Result.bind_err, Result.err.injEq] at h
    rw [h]
  | panic p => rw [hw] at h; simp at h

theorem map_num_zipWith_stamp (P : List Buffer) : ∀ (idx : Nat),
    (List.zipWith stamp (List.range' idx P.length) P).map Buffer.num =
      List.range' idx P.length := by
  induction P with
  | nil => intro idx; simp
  | cons b rest ih => intro idx; simp [List.range'_succ, stamp, ih]

theorem map_Data_zipWith_stamp (P : List Buffer) : ∀ (idx : Nat),
    (List.zipWith stamp (List.range' idx P.length) P).map Buffer.Data = P.map Buffer.Data := by
  induction P with
  | nil => intro idx; simp
  | cons b rest ih => intro idx; simp [List.range'_succ, stamp, ih]

/-- What a successful walk from index 0 does, in terms of the placeholder
lists before and after. -/
theorem attachBuffer_ok_placeholders {v : Value} {fl : Flag} {w : Walk Value}
    (h : attachBuffer v fl 0 = .ok w) :
    (∀ m ∈ met v fl, m.good = true) ∧
    w.ret = (placeholders v fl).map Buffer.Data ∧
    (placeholders v fl).length = (met v fl).length ∧
    ((placeholders v fl).length < 2 ^ 64 → w.index = (placeholders v fl).length ∧
      placeholders w.val fl =
        List.zipWith stamp (List.range (placeholders v fl).length) (placeholders v fl)) := by
  obtain ⟨h₁, h₂, h₃, h₄⟩ := scan_ok _ _ _ (attachBuffer_ok_scan h)
  refine ⟨h₁, h₂, h₃, fun hn => ?_⟩
  have := h₄ (by simpa [placeholders, h₃] using hn)
  simpa [placeholders, h₃, List.range_eq_range'] using this

/-! ## Runs -/

@[simp] theorem run_pure_apply {α : Type} (a : α) (log : Log) :
    (Pure.pure a : Run α) log = (log, .ok a) := rfl

theorem Run.bind_apply {α β : Type} (x : Run α) (f : α → Run β) (log : Log) :
    (x >>= f) log =
      match x log with
      | (log₁, .ok a) => f a log₁
      | (log₁, .err e) => (log₁, .err e)
      | (log₁, .panic p) => (log₁, .panic p) := rfl

@[simp] theorem Run.lift_apply {α : Type} (r : Result α) (log : Log) :
    Run.lift r log = (log, r) := rfl

theorem call_ok (env : Env) (hok : ∀ k, env.answer k = none) (c : Call) (log : Log) :
    call env c log = (log ++ [c], .ok ()) := by
  simp [call, hok]

/-! ## `writeUint64` writes the canonical decimal representation -/

theorem digits_zero_base (env : Env) (fuel i : Nat) (log : Log) :
    writeUint64.digits env fuel i 0 log = (log, .ok ()) := by
  cases fuel <;> simp [writeUint64.digits]

theorem digits_ok (env : Env) (hok : ∀ k, env.answer k = none) :
    ∀ (k fuel i : Nat) (log : Log), k < fuel → i < 10 ^ (k + 1) →
      writeUint64.digits env fuel i (10 ^ k) log =
        (log ++ (bigEndian k i).map (fun d => Call.WriteByte (d + 48)), .ok ()) := by
  intro k
  induction k with
  | zero =>
    intro fuel i log hf hi
    obtain ⟨f, rfl⟩ : ∃ f, fuel = f + 1 := ⟨fuel - 1, by omega⟩
    have h₁ : (i % 256 + 48) % 256 = i + 48 := by omega
    simp [writeUint64.digits, Run.bind_apply, call_ok env hok, digits_zero_base, bigEndian, h₁]
  | succ k ih =>
    intro fuel i log hf hi
    obtain ⟨f, rfl⟩ : ∃ f, fuel = f + 1 := ⟨fuel - 1, by omega⟩
    have hpos : 0 < 10 ^ (k + 1) := by positivity
    have hp : i / 10 ^ (k + 1) < 10 := by
      rw [Nat.div_lt_iff_lt_mul hpos]
      calc i < 10 ^ (k + 1 + 1) := hi
        _ = 10 * 10 ^ (k + 1) := by ring
    have h₁ : (i / 10 ^ (k + 1) % 256 + 48) % 256 = i / 10 ^ (k + 1) + 48 := by
      generalize i / 10 ^ (k + 1) = p at hp
      omega
    have h₂ : i - i / 10 ^ (k + 1) * 10 ^ (k + 1) = i % 10 ^ (k + 1) := by
      have := Nat.div_add_mod i (10 ^ (k + 1))
      rw [Nat.mul_comm] at this
      omega
    have h₃ : 10 ^ (k + 1) / 10 = 10 ^ k := by
      rw [pow_succ, Nat.mul_div_cancel _ (by norm_num)]
    have h₄ := ih f (i % 10 ^ (k + 1)) (log ++ [Call.WriteByte (i / 10 ^ (k + 1) + 48)])
      (by omega) (Nat.mod_lt _ hpos)
    rw [writeUint64.digits]
    simp only [hpos, gt_iff_lt, if_true, Run.bind_apply, call_ok env hok, h₁, h₂, h₃, h₄,
      bigEndian, List.map_cons, List.append_assoc, List.singleton_append]

theorem base_loop (i : Nat) (hi : i < 2 ^ 64) :
    ∀ (fuel j : Nat), j ≤ Nat.log 10 i → Nat.log 10 i ≤ j + fuel →
      writeUint64.base fuel i (10 ^ j) = 10 ^ Nat.log 10 i := by
  intro fuel
  induction fuel with
  | zero =>
    intro j h₁ h₂
    have : j = Nat.log 10 i := by omega
    simp [writeUint64.base, this]
  | succ f ih =>
    intro j h₁ h₂
    have hpos : 0 < 10 ^ j := by positivity
    rw [writeUint64.base]
    by_cases hlt : j < Nat.log 10 i
    · have hi0 : i ≠ 0 := by
        rintro rfl
        simp at hlt
      have hle : 10 ^ (j + 1) ≤ i := (Nat.pow_le_iff_le_log (by norm_num) hi0).mpr hlt
      have hge : i / 10 ^ j ≥ 10 := by
        rw [ge_iff_le, Nat.le_div_iff_mul_le hpos]
        calc 10 * 10 ^ j = 10 ^ (j + 1) := by ring
          _ ≤ i := hle
      have hmod : 10 ^ j * 10 % 2 ^ 64 = 10 ^ (j + 1) := by
        rw [← pow_succ]
        exact Nat.mod_eq_of_lt (lt_of_le_of_lt hle hi)
      rw [if_pos hge, hmod]
      exact ih (j + 1) hlt (by omega)
    · have hj : j = Nat.log 10 i := by omega
      have hnot : ¬ i / 10 ^ j ≥ 10 := by
        rw [ge_iff_le, Nat.le_div_iff_mul_le hpos, not_le]
        calc i < 10 ^ (Nat.log 10 i).succ := Nat.lt_pow_succ_log_self (by norm_num) i
          _ = 10 * 10 ^ j := by rw [hj, Nat.pow_succ]; ring
      rw [if_neg hnot, hj]

theorem log_lt_twenty (i : Nat) (hi : i < 2 ^ 64) : Nat.log 10 i < 20 := by
  by_cases h0 : i = 0
  · simp [h0]
  · exact Nat.log_lt_of_lt_pow h0 (lt_trans hi (by norm_num))

theorem bigEndian_length (k : Nat) : ∀ i, (bigEndian k i).length = k + 1 := by
  induction k with
  | zero => intro i; rfl
  | succ k ih => intro i; simp [bigEndian, ih]

theorem bigEndian_lt (k : Nat) : ∀ i, i < 10 ^ (k + 1) → ∀ d ∈ bigEndian k i, d < 10 := by
  induction k with
  | zero =>
    intro i hi d hd
    simp [bigEndian] at hd
    omega
  | succ k ih =>
    intro i hi d hd
    have hpos : 0 < 10 ^ (k + 1) := by positivity
    simp only [bigEndian, List.mem_cons] at hd
    rcases hd with rfl | hd
    · rw [Nat.div_lt_iff_lt_mul hpos]
      calc i < 10 ^ (k + 1 + 1) := hi
        _ = 10 * 10 ^ (k + 1) := by ring
    · exact ih _ (Nat.mod_lt _ hpos) d hd

theorem bigEndian_ofDigits (k : Nat) : ∀ i, Nat.ofDigits 10 (bigEndian k i).reverse = i := by
  induction k with
  | zero => intro i; simp [bigEndian]
  | succ k ih =>
    intro i
    simp only [bigEndian, List.reverse_cons, Nat.ofDigits_append, ih, List.length_reverse,
      bigEndian_length, Nat.ofDigits_singleton]
    have := Nat.div_add_mod i (10 ^ (k + 1))
    omega

theorem bigEndian_log (i : Nat) (hi : i ≠ 0) :
    bigEndian (Nat.log 10 i) i = (Nat.digits 10 i).reverse := by
  have hlt : i < 10 ^ (Nat.log 10 i + 1) := Nat.lt_pow_succ_log_self (by norm_num) i
  have hle : 10 ^ Nat.log 10 i ≤ i := Nat.pow_log_le_self 10 hi
  have hhead : (bigEndian (Nat.log 10 i) i).head? = some (i / 10 ^ Nat.log 10 i) := by
    cases Nat.log 10 i <;> simp [bigEndian]
  have hne : i / 10 ^ Nat.log 10 i ≠ 0 := by
    have : 0 < i / 10 ^ Nat.log 10 i := Nat.div_pos hle (by positivity)
    omega
  have h := Nat.digits_ofDigits 10 (by norm_num) (bigEndian (Nat.log 10 i) i).reverse
    (fun d hd => bigEndian_lt _ i hlt d (List.mem_reverse.mp hd))
    (fun hnil => by
      rw [List.getLast_reverse]
      intro h0
      have := List.head?_eq_head (List.reverse_ne_nil_iff.mp hnil)
      rw [hhead, h0] at this
      exact hne (Option.some.inj this))
  rw [bigEndian_ofDigits] at h
  rw [h, List.reverse_reverse]

theorem writeUint64_ok (env : Env) (hok : ∀ k, env.answer k = none) (i : Nat)
    (hi : i < 2 ^ 64) (log : Log) :
    writeUint64 env i log = (log ++ (decimal i).map Call.WriteByte, .ok ()) := by
  have hb := base_loop i hi 20 0 (Nat.zero_le _) (by have := log_lt_twenty i hi; omega)
  simp only [pow_zero] at hb
  rw [writeUint64, writeUint64With, hb,
    digits_ok env hok _ 20 i log (log_lt_twenty i hi) (Nat.lt_pow_succ_log_self (by norm_num) i)]
  by_cases h0 : i = 0
  · subst h0
    simp [decimal, bigEndian]
  · rw [bigEndian_log i h0]
    simp [decimal, h0, Function.comp_def]

/-! ## Abort on the first failed call: the combinators -/

theorem Aborts.pure (env : Env) {α : Type} (a : α) : Aborts env (pure a : Run α) := by
  intro log
  exact ⟨[], by simp, by simp⟩

theorem Aborts.lift (env : Env) {α : Type} (r : Result α) : Aborts env (Run.lift r) := by
  intro log
  exact ⟨[], by simp, by simp⟩

theorem Aborts.call (env : Env) (c : Call) : Aborts env (call env c) := by
  intro log
  refine ⟨[c], rfl, ?_⟩
  intro k e hk he _
  have hk0 : k = 0 := by simpa using hk
  subst hk0
  refine ⟨?_, ?_⟩
  · simp only [Nat.add_zero] at he
    simp [Parser.call, he]
  · intro j hj hj'
    simp at hj'
    omega

theorem Aborts.bind (env : Env) {α β : Type} {x : Run α} {f : α → Run β}
    (hx : Aborts env x) (hf : ∀ a, Aborts env (f a)) : Aborts env (x >>= f) := by
  intro log
  obtain ⟨new₁, h₁, p₁⟩ := hx log
  rw [Run.bind_apply]
  rcases hxl : x log with ⟨log₁, r⟩
  rw [hxl] at h₁ p₁
  simp only at h₁ p₁
  subst h₁
  cases r with
  | ok a =>
    obtain ⟨new₂, h₂, p₂⟩ := hf a (log ++ new₁)
    refine ⟨new₁ ++ new₂, by simp [h₂], ?_⟩
    intro k e hk he hc
    by_cases hlt : k < new₁.length
    · rw [List.getElem?_append_left hlt] at hc
      have := (p₁ k e hlt he hc).1
      simp at this
    · have hge : new₁.length ≤ k := Nat.le_of_not_lt hlt
      rw [List.getElem?_append_right hge] at hc
      simp only [List.length_append] at hk
      have he' : env.answer ((log ++ new₁).length + (k - new₁.length)) = some e := by
        rw [List.length_append]
        rw [← he]
        congr 1
        omega
      obtain ⟨hr, hlater⟩ := p₂ (k - new₁.length) e (by omega) he' hc
      refine ⟨hr, ?_⟩
      intro j hj hj'
      simp only [List.length_append] at hj'
      rw [List.getElem?_append_right (by omega)]
      exact hlater (j - new₁.length) (by omega) (by omega)
  | err e₀ => exact ⟨new₁, rfl, fun k e hk he hc => by simpa using p₁ k e hk he hc⟩
  | panic p => exact ⟨new₁, rfl, fun k e hk he hc => by simpa using p₁ k e hk he hc⟩

theorem Aborts.deferClose (env : Env) {α : Type} {x : Run α} (hx : Aborts env x) :
    Aborts env (deferClose env x) := by
  intro log
  obtain ⟨new₁, h₁, p₁⟩ := hx log
  refine ⟨new₁ ++ [.Close], by simp [Parser.deferClose, Parser.call, h₁], ?_⟩
  intro k e hk he hc
  by_cases hlt : k < new₁.length
  · rw [List.getElem?_append_left hlt] at hc
    obtain ⟨hr, hlater⟩ := p₁ k e hlt he hc
    refine ⟨by simpa [Parser.deferClose] using hr, ?_⟩
    intro j hj hj'
    by_cases hjlt : j < new₁.length
    · rw [List.getElem?_append_left hjlt]
      exact hlater j hj hjlt
    · simp only [List.length_append, List.length_singleton] at hj'
      have : j = new₁.length := by omega
      subst this
      simp
  · simp only [List.length_append, List.length_singleton] at hk
    have : k = new₁.length := by omega
    subst this
    simp at hc

/-! ## Every part of the encoder aborts on the first failed call -/

theorem aborts_digits (env : Env) : ∀ (fuel i base : Nat),
    Aborts env (writeUint64.digits env fuel i base) := by
  intro fuel
  induction fuel with
  | zero => intro i base; exact Aborts.pure env _
  | succ f ih =>
    intro i base
    rw [writeUint64.digits]
    split
    · exact Aborts.bind env (Aborts.call env _) (fun _ => ih _ _)
    · exact Aborts.pure env _

theorem aborts_writeUint64 (env : Env) (i : Nat) : Aborts env (writeUint64 env i) :=
  aborts_digits env _ _ _

theorem aborts_count (env : Env) (typ max : Nat) : Aborts env (writePacket.count env typ max) := by
  unfold writePacket.count
  split
  · exact Aborts.bind env (aborts_writeUint64 env _) (fun _ => Aborts.call env _)
  · exact Aborts.pure env _

theorem aborts_ns (env : Env) (h : Header) (args : Option (List Value)) :
    Aborts env (writePacket.ns env h args) := by
  unfold writePacket.ns
  split
  · refine Aborts.bind env (Aborts.call env _) (fun _ => ?_)
    split
    · exact Aborts.call env _
    · exact Aborts.pure env _
  · exact Aborts.pure env _

theorem aborts_id (env : Env) (h : Header) : Aborts env (writePacket.id env h) := by
  unfold writePacket.id
  split
  · exact aborts_writeUint64 env _
  · exact Aborts.pure env _

theorem aborts_json (env : Env) (args : List Value) :
    Aborts env (writePacket.json env args) := by
  unfold writePacket.json
  split
  · exact Aborts.pure env _
  · split
    · exact Aborts.lift env _
    · exact Aborts.call env _

theorem aborts_flush (env : Env) : Aborts env (writePacket.flush env) := by
  unfold writePacket.flush
  split
  · exact Aborts.call env _
  · exact Aborts.pure env _

theorem aborts_rest (env : Env) (h : Header) (args : Option (List Value)) (w : Walk Value) :
    Aborts env (writePacket.rest env h args w) :=
  Aborts.bind env (aborts_ns env h args) fun _ =>
    Aborts.bind env (aborts_id env h) fun _ =>
      Aborts.bind env (aborts_json env _) fun _ =>
        Aborts.bind env (aborts_flush env) fun _ => Aborts.pure env _

theorem aborts_writePacket (env : Env) (h : Header) (args : Option (List Value)) :
    Aborts env (writePacket env h args) :=
  Aborts.deferClose env <|
    Aborts.bind env (Aborts.lift env _) fun w =>
      Aborts.bind env (Aborts.call env _) fun _ =>
        Aborts.bind env (aborts_count env _ _) fun _ => aborts_rest env h args w

theorem aborts_writeBuffer (env : Env) (b : List Nat) : Aborts env (writeBuffer env b) :=
  Aborts.deferClose env (Aborts.call env _)

theorem aborts_loop (env : Env) : ∀ (bs : List (List Nat)), Aborts env (Encode.loop env bs) := by
  intro bs
  induction bs with
  | nil => exact Aborts.pure env _
  | cons b rest ih =>
    exact Aborts.bind env (Aborts.call env _) fun _ =>
      Aborts.bind env (aborts_writeBuffer env b) fun _ => ih

theorem aborts_Encode (env : Env) (h : Header) (args : Option (List Value)) :
    Aborts env (Encode env h args) :=
  Aborts.bind env (Aborts.call env _) fun _ =>
    Aborts.bind env (aborts_writePacket env h args) fun bs => aborts_loop env bs

/-! ## The calls of the encoder when no call fails -/

theorem count_ok (env : Env) (hok : ∀ k, env.answer k = none) (typ max : Nat)
    (hmax : max < 2 ^ 64) (log : Log) :
    writePacket.count env typ max log = (log ++ countCalls typ max, .ok ()) := by
  unfold writePacket.count countCalls
  split
  · simp [Run.bind_apply, writeUint64_ok env hok max hmax, call_ok env hok]
  · simp

theorem ns_ok (env : Env) (hok : ∀ k, env.answer k = none) (h : Header)
    (args : Option (List Value)) (log : Log) :
    writePacket.ns env h args log = (log ++ nsCalls h args, .ok ()) := by
  unfold writePacket.ns nsCalls
  split
  · split <;> simp [Run.bind_apply, call_ok env hok, *]
  · simp

theorem id_ok (env : Env) (hok : ∀ k, env.answer k = none) (h : Header)
    (hid : h.ID < 2 ^ 64) (log : Log) :
    writePacket.id env h log = (log ++ idCalls h, .ok ()) := by
  unfold writePacket.id idCalls
  split
  · exact writeUint64_ok env hok _ hid log
  · simp

theorem json_ok (env : Env) (hok : ∀ k, env.answer k = none) (args : List Value) (log : Log) :
    writePacket.json env args log =
      (log ++ jsonCalls env args,
        match jsonError env args with
        | none => .ok ()
        | some e => .err e) := by
  unfold writePacket.json jsonCalls jsonError
  split
  · simp
  · split <;> simp [call_ok env hok, *]

theorem flush_ok (env : Env) (hok : ∀ k, env.answer k = none) (log : Log) :
    writePacket.flush env log = (log ++ flushCalls env, .ok ()) := by
  unfold writePacket.flush flushCalls
  split <;> simp [call_ok env hok]

theorem rest_ok (env : Env) (hok : ∀ k, env.answer k = none) (h : Header)
    (args : Option (List Value)) (w : Walk Value) (hid : h.ID < 2 ^ 64) (log : Log) :
    writePacket.rest env h args w log =
      (log ++ restCalls env h args w,
        match jsonError env (sliceElems w.val) with
        | none => .ok w.ret
        | some e => .err e) := by
  unfold writePacket.rest restCalls
  simp only [Run.bind_apply, ns_ok env hok, id_ok env hok h hid, json_ok env hok]
  cases jsonError env (sliceElems w.val) with
  | none => simp [flush_ok env hok]
  | some e => simp

theorem loop_ok (env : Env) (hok : ∀ k, env.answer k = none) :
    ∀ (bs : List (List Nat)) (log : Log),
      Encode.loop env bs log = (log ++ bs.flatMap frameCalls, .ok ()) := by
  intro bs
  induction bs with
  | nil => intro log; simp [Encode.loop]
  | cons b rest ih =>
    intro log
    simp [Encode.loop, Run.bind_apply, call_ok env hok, writeBuffer, deferClose, ih, frameCalls]

theorem writePacketBody_ok (env : Env) (hok : ∀ k, env.answer k = none) (h : Header)
    (args : Option (List Value)) (w : Walk Value) (log : Log)
    (hw : attachBuffer (valueOfArgs args) Flag.ofValueOf 0 = .ok w)
    (hn : w.ret.length < 2 ^ 64) :
    writePacketBody env h args log =
      writePacket.rest env h args w
        (log ++ .WriteByte ((writePacket.typ h w.ret.length + 48) % 256) ::
          countCalls (writePacket.typ h w.ret.length) w.index) := by
  have hi : w.index < 2 ^ 64 := by
    have h₂ := (attachBuffer_ok_placeholders hw).2.1
    have h₄ := (attachBuffer_ok_placeholders hw).2.2.2
    have hlen : w.ret.length = (placeholders (valueOfArgs args) Flag.ofValueOf).length := by
      simp [h₂]
    rw [(h₄ (hlen ▸ hn)).1, ← hlen]
    exact hn
  simp only [writePacketBody, Run.bind_apply, Run.lift_apply, hw, call_ok env hok,
    count_ok env hok _ _ hi, List.append_assoc, List.singleton_append]

theorem walk_index_eq {v : Value} {fl : Flag} {w : Walk Value}
    (hw : attachBuffer v fl 0 = .ok w) (hn : w.ret.length < 2 ^ 64) :
    w.index = w.ret.length := by
  have h₂ := (attachBuffer_ok_placeholders hw).2.1
  have h₄ := (attachBuffer_ok_placeholders hw).2.2.2
  have hlen : w.ret.length = (placeholders v fl).length := by simp [h₂]
  rw [(h₄ (hlen ▸ hn)).1, ← hlen]

/-! ## The walker: indices and order (C1, C2, C3) -/

/-- The indices of a successful walk from 0, in terms of the returned list. -/
theorem walk_indices {v : Value} {fl : Flag} {w : Walk Value}
    (h : attachBuffer v fl 0 = .ok w) (hn : w.ret.length < 2 ^ 64) :
    (placeholders w.val fl).map Buffer.num = List.range w.ret.length ∧
    (placeholders w.val fl).map Buffer.Data = w.ret ∧
    ∀ b ∈ placeholders w.val fl, w.ret[b.num]? = some b.Data := by
  obtain ⟨-, h₂, -, h₄⟩ := attachBuffer_ok_placeholders h
  have hlen : w.ret.length = (placeholders v fl).length := by simp [h₂]
  obtain ⟨-, hv⟩ := h₄ (hlen ▸ hn)
  have hnum : (placeholders w.val fl).map Buffer.num = List.range w.ret.length := by
    rw [hv, hlen, List.range_eq_range', map_num_zipWith_stamp]
  have hdata : (placeholders w.val fl).map Buffer.Data = w.ret := by
    rw [hv, List.range_eq_range', map_Data_zipWith_stamp, h₂]
  refine ⟨hnum, hdata, ?_⟩
  intro b hb
  obtain ⟨k, hk⟩ := List.mem_iff_getElem?.mp hb
  have h₁ : ((placeholders w.val fl).map Buffer.num)[k]? = some b.num := by
    simp [hk]
  have h₃ : ((placeholders w.val fl).map Buffer.Data)[k]? = some b.Data := by
    simp [hk]
  rw [hnum] at h₁
  rw [hdata] at h₃
  have hk' : b.num = k := by
    by_cases hlt : k < w.ret.length
    · rw [List.getElem?_range hlt] at h₁
      simpa using h₁.symm
    · simp [List.getElem?_eq_none (Nat.le_of_not_lt hlt)] at h₃
  rw [hk']
  exact h₃

/-- C1. For a header of type `Event` or `Ack`, when the walk of the arguments
succeeds with `n = w.ret.length` buffers (fewer than `2 ^ 64`, as any Go slice
has) and no call on the writer fails, `writePacket` starts the text frame as
follows: with `n = 0` it writes the byte `'0' + type` and goes straight on to
lines 107-136 (namespace, id, body); with `n ≥ 1` it writes the byte
`'0' + type + 3`, the decimal digits of `n`, the byte `'-'`, and then goes on to
lines 107-136. -/
theorem writePacket_type_digit_and_count (env : Env) (h : Header)
    (args : Option (List Value)) (w : Walk Value) (log : Log)
    (hok : ∀ k, env.answer k = none) (ht : h.Typ = Event ∨ h.Typ = Ack)
    (hw : attachBuffer (valueOfArgs args) Flag.ofValueOf 0 = .ok w)
    (hn : w.ret.length < 2 ^ 64) :
    (w.ret.length = 0 →
      writePacket env h args log =
        deferClose env (writePacket.rest env h args w) (log ++ [.WriteByte (48 + h.Typ)])) ∧
    (0 < w.ret.length →
      writePacket env h args log =
        deferClose env (writePacket.rest env h args w)
          (log ++ .WriteByte (48 + h.Typ + 3) ::
            ((decimal w.ret.length).map .WriteByte ++ [.WriteByte 45]))) := by
  have hb := writePacketBody_ok env hok h args w log hw hn
  have hi := walk_index_eq hw hn
  constructor
  · intro h0
    have htyp : writePacket.typ h w.ret.length = h.Typ := by simp [writePacket.typ, h0]
    have hc : countCalls h.Typ w.index = [] := by
      rcases ht with ht | ht <;> simp [countCalls, ht, Event, Ack, binaryEvent, binaryAck]
    have hd : (h.Typ + 48) % 256 = 48 + h.Typ := by
      rcases ht with ht | ht <;> simp [ht, Event, Ack]
    simp only [writePacket, deferClose, hb, htyp, hc, hd]
  · intro hpos
    have htyp : writePacket.typ h w.ret.length = h.Typ + 3 := by
      rcases ht with ht | ht <;> simp [writePacket.typ, hpos, ht, Event, Ack]
    have hc : countCalls (h.Typ + 3) w.index =
        (decimal w.ret.length).map .WriteByte ++ [.WriteByte 45] := by
      rcases ht with ht | ht <;> simp [countCalls, ht, hi, Event, Ack, binaryEvent, binaryAck]
    have hd : (h.Typ + 3 + 48) % 256 = 48 + h.Typ + 3 := by
      rcases ht with ht | ht <;> simp [ht, Event, Ack]
    simp only [writePacket, deferClose, hb, htyp, hc, hd]

/-- C1, witness: `Encode(Header{Type: Event}, &Buffer{Data: [1]})` on a writer
that never fails writes `'5'`, `'1'`, `'-'` first. -/
theorem writePacket_type_digit_and_count_witness :
    writePacket okEnv ⟨Event, [], 0, false⟩ (some [.ptr (.buffer bufA)]) [] =
      deferClose okEnv
        (writePacket.rest okEnv ⟨Event, [], 0, false⟩ (some [.ptr (.buffer bufA)])
          ⟨.slice [.iface (.ptr (.buffer ⟨[1], true, 0⟩))], [[1]], 1⟩)
        [.WriteByte 53, .WriteByte 49, .WriteByte 45] := by
  have h := (writePacket_type_digit_and_count okEnv ⟨Event, [], 0, false⟩
    (some [.ptr (.buffer bufA)])
    ⟨.slice [.iface (.ptr (.buffer ⟨[1], true, 0⟩))], [[1]], 1⟩ [] (fun _ => rfl) (Or.inl rfl)
    rfl (by decide)).2 (by decide)
  simpa [decimal, Event] using h

/-- C2, as stated, fails: for the argument list holding one placeholder by value
(a tree of a slice, an interface and a struct, without map and without shared
pointer) the walker returns the error of line 165 and stamps nothing, so there
is no stamped tree in which placeholder number 0 has `num = 0` and
`isBinary = true`.  Likewise for a placeholder in an unexported field of a
struct passed by pointer: `Interface()` on line 167 panics. -/
theorem attachBuffer_by_value_not_stamped :
    (¬ ∃ w, attachBuffer exampleByValue Flag.ofValueOf 0 = .ok w ∧
      placeholders w.val Flag.ofValueOf =
        List.zipWith stamp (List.range (placeholders exampleByValue Flag.ofValueOf).length)
          (placeholders exampleByValue Flag.ofValueOf)) ∧
    attachBuffer exampleByValue Flag.ofValueOf 0 = .err .errFailedBufferAddress ∧
    attachBuffer (.slice [.iface (.ptr (.struct "T" [(.unexported, .buffer bufA)]))])
      Flag.ofValueOf 0 = .panic .unexportedInterface := by
  refine ⟨?_, rfl, rfl⟩
  rintro ⟨w, hw, -⟩
  have h : attachBuffer exampleByValue Flag.ofValueOf 0 = .err .errFailedBufferAddress := rfl
  rw [h] at hw
  cases hw

/-- C2 (amended). For every argument tree built from pointers, interfaces,
structs, arrays and slices, without shared pointers (a `Value` is a tree, each
placeholder in it is memory of its own), in which every struct the walker takes
for a placeholder is addressable, was not reached through an unexported field
and is a `parser.Buffer`, and which holds fewer than `2 ^ 64` placeholders:
`attachBuffer` started with index 0 succeeds and the `k`-th placeholder met in
depth-first order (struct fields in declaration order, sequence elements in
index order) comes out with `num = k` and `isBinary = true`, its data
unchanged, for every `k`.  The proof does not use the absence of maps: with
maps the same holds in the order in which `MapKeys` lists the keys. -/
theorem attachBuffer_stamps_in_traversal_order (v : Value) (fl : Flag)
    (hgood : ∀ m ∈ met v fl, m.good = true) (hn : (placeholders v fl).length < 2 ^ 64) :
    ∃ w, attachBuffer v fl 0 = .ok w ∧
      placeholders w.val fl =
        List.zipWith stamp (List.range (placeholders v fl).length) (placeholders v fl) := by
  obtain ⟨s, hs⟩ := scan_good (met v fl) 0 hgood
  obtain ⟨w, hw, -⟩ := attachBuffer_of_scan_ok hs
  exact ⟨w, hw, ((attachBuffer_ok_placeholders hw).2.2.2 hn).2⟩

/-- C2, witness: for `[A, [B, C]]` the placeholders come out stamped 0, 1, 2 in
that order. -/
theorem attachBuffer_stamps_in_traversal_order_witness :
    ∃ w, attachBuffer exampleABC Flag.ofValueOf 0 = .ok w ∧
      placeholders w.val Flag.ofValueOf = [⟨[1], true, 0⟩, ⟨[2], true, 1⟩, ⟨[3], true, 2⟩] :=
  attachBuffer_stamps_in_traversal_order exampleABC Flag.ofValueOf (by decide) (by decide)

/-- C3. Whenever `attachBuffer`, started with index 0, succeeds on a value
(structs, sequences, maps, pointers; fewer than `2 ^ 64` buffers returned, as
any Go slice has): the indices stamped on the placeholders, read in traversal
order, are exactly `0, 1, ..., n - 1` and so pairwise distinct, where `n` is
the length of the returned buffer list and also the final value of the
counter, and position `b.num` of the returned list holds the data of the
placeholder `b`. -/
theorem attachBuffer_indices_unique (v : Value) (fl : Flag) (w : Walk Value)
    (h : attachBuffer v fl 0 = .ok w) (hn : w.ret.length < 2 ^ 64) :
    (placeholders w.val fl).map Buffer.num = List.range w.ret.length ∧
    ((placeholders w.val fl).map Buffer.num).Nodup ∧
    w.index = w.ret.length ∧
    ∀ b ∈ placeholders w.val fl, w.ret[b.num]? = some b.Data := by
  obtain ⟨hnum, -, hget⟩ := walk_indices h hn
  refine ⟨hnum, ?_, walk_index_eq h hn, hget⟩
  rw [hnum]
  exact List.nodup_range _

/-- C3, witness: a map holding two placeholders behind pointers and a struct
holding a slice of two more. -/
theorem attachBuffer_indices_unique_witness :
    (placeholders
        (.slice [.iface (.map [("x", .ptr (.buffer bufA)), ("y", .ptr (.buffer bufB))]),
          .iface (.struct "T" [(.exported, .slice [.buffer bufC, .buffer bufA])])])
        Flag.ofValueOf).map Buffer.Data = [[1], [2], [3], [1]] ∧
    ∀ b ∈ placeholders
        (.slice [.iface (.map [("x", .ptr (.buffer ⟨[1], true, 0⟩)),
            ("y", .ptr (.buffer ⟨[2], true, 1⟩))]),
          .iface (.struct "T" [(.exported, .slice [.buffer ⟨[3], true, 2⟩,
            .buffer ⟨[1], true, 3⟩])])])
        Flag.ofValueOf,
      [[1], [2], [3], [1]][b.num]? = some b.Data :=
  ⟨by decide,
    (attachBuffer_indices_unique
      (.slice [.iface (.map [("x", .ptr (.buffer bufA)), ("y", .ptr (.buffer bufB))]),
        .iface (.struct "T" [(.exported, .slice [.buffer bufC, .buffer bufA])])])
      Flag.ofValueOf
      ⟨.slice [.iface (.map [("x", .ptr (.buffer ⟨[1], true, 0⟩)),
          ("y", .ptr (.buffer ⟨[2], true, 1⟩))]),
        .iface (.struct "T" [(.exported, .slice [.buffer ⟨[3], true, 2⟩,
          .buffer ⟨[1], true, 3⟩])])], [[1], [2], [3], [1]], 4⟩
      rfl (by decide)).2.2.2⟩

/-! ## The frames requested (C4) -/

theorem requested_append (l₁ l₂ : List Call) :
    requested (l₁ ++ l₂) = requested l₁ ++ requested l₂ := by
  simp [requested]

theorem requested_writeBytes (l : List Nat) : requested (l.map Call.WriteByte) = [] := by
  induction l with
  | nil => rfl
  | cons a rest ih => simp [requested]

theorem requested_textCalls (env : Env) (h : Header) (args : Option (List Value))
    (w : Walk Value) : requested (textCalls env h args w) = [] := by
  have h₁ : requested (countCalls (writePacket.typ h w.ret.length) w.index) = [] := by
    unfold countCalls
    split
    · rw [requested_append, requested_writeBytes]; rfl
    · rfl
  have h₂ : requested (nsCalls h args) = [] := by
    unfold nsCalls
    split
    · split <;> rfl
    · rfl
  have h₃ : requested (idCalls h) = [] := by
    unfold idCalls
    split
    · exact requested_writeBytes _
    · rfl
  have h₄ : requested (jsonCalls env (sliceElems w.val)) = [] := by
    unfold jsonCalls
    split
    · rfl
    · split <;> rfl
  have h₅ : requested (match jsonError env (sliceElems w.val) with
      | none => flushCalls env
      | some _ => []) = [] := by
    split
    · unfold flushCalls
      split <;> rfl
    · rfl
  have h₆ : requested (restCalls env h args w) = [] := by
    unfold restCalls
    rw [requested_append, requested_append, requested_append, h₂, h₃, h₄, h₅]
    rfl
  show requested ([Call.WriteByte _] ++ (countCalls _ _ ++ restCalls env h args w)) = []
  rw [requested_append, requested_append, h₁, h₆]
  rfl

theorem requested_frames (bs : List (List Nat)) :
    requested (bs.flatMap frameCalls) = List.replicate bs.length .BINARY := by
  induction bs with
  | nil => rfl
  | cons b rest ih =>
    rw [List.flatMap_cons, requested_append, ih]
    rfl

theorem Encode_ok (env : Env) (hok : ∀ k, env.answer k = none) (h : Header)
    (args : Option (List Value)) (w : Walk Value) (log : Log)
    (hw : attachBuffer (valueOfArgs args) Flag.ofValueOf 0 = .ok w)
    (hn : w.ret.length < 2 ^ 64) (hid : h.ID < 2 ^ 64) :
    Encode env h args log =
      match jsonError env (sliceElems w.val) with
      | none =>
        (log ++ .NextWriter .TEXT :: (textCalls env h args w ++
          .Close :: w.ret.flatMap frameCalls), .ok ())
      | some e => (log ++ .NextWriter .TEXT :: (textCalls env h args w ++ [.Close]), .err e) := by
  simp only [Encode, Run.bind_apply, call_ok env hok, writePacket, deferClose,
    writePacketBody_ok env hok h args w _ hw hn, rest_ok env hok h args w hid]
  cases jsonError env (sliceElems w.val) with
  | none => simp [loop_ok env hok, textCalls]
  | some e => simp [textCalls]

/-- C4, as stated, fails.  First conjuncts: no call on the writer fails, the
walker finds one placeholder, but the first argument is a channel, which does
not marshal, and `Encode` returns that error after requesting the text frame
only.  Last conjunct: a placeholder passed by value stops the walk, and again
only the text frame is requested. -/
theorem Encode_text_frame_only :
    (∀ k, chanEnv.answer k = none) ∧
    attachBuffer (valueOfArgs (some [.scalar "chan", .ptr (.buffer bufA)])) Flag.ofValueOf 0 =
      .ok ⟨.slice [.iface (.scalar "chan"), .iface (.ptr (.buffer ⟨[1], true, 0⟩))], [[1]], 1⟩ ∧
    Encode chanEnv ⟨Event, [], 0, false⟩ (some [.scalar "chan", .ptr (.buffer bufA)]) [] =
      ([.NextWriter .TEXT, .WriteByte 53, .WriteByte 49, .WriteByte 45, .Close],
        .err (.other 0)) ∧
    Encode okEnv ⟨Event, [], 0, false⟩ (some [.buffer bufA]) [] =
      ([.NextWriter .TEXT, .Close], .err .errFailedBufferAddress) :=
  ⟨fun _ => rfl, rfl, rfl, rfl⟩

/-- C4 (amended). When no call on the writer fails, the walk of the arguments
succeeds with the buffers `w.ret` (fewer than `2 ^ 64`), the id is a `uint64`
and the first argument, if there is one, marshals to JSON, `Encode` returns nil
after these calls: it requests a TEXT frame, makes the calls `textCalls` on it
and closes it, then for each buffer in order requests a BINARY frame, writes
the buffer to it with one `Write` and closes it.  So it requests exactly
`1 + n` frames, TEXT first and then `n` BINARY, and the payload of the BINARY
frame number `i` is the data of the placeholder stamped `i`. -/
theorem Encode_frames (env : Env) (h : Header) (args : Option (List Value))
    (w : Walk Value) (log : Log) (hok : ∀ k, env.answer k = none)
    (hw : attachBuffer (valueOfArgs args) Flag.ofValueOf 0 = .ok w)
    (hn : w.ret.length < 2 ^ 64) (hid : h.ID < 2 ^ 64)
    (hj : jsonError env (sliceElems w.val) = none) :
    Encode env h args log =
      (log ++ .NextWriter .TEXT :: (textCalls env h args w ++
        .Close :: w.ret.flatMap frameCalls), .ok ()) ∧
    requested (.NextWriter .TEXT :: (textCalls env h args w ++
        .Close :: w.ret.flatMap frameCalls)) = .TEXT :: List.replicate w.ret.length .BINARY ∧
    ∀ b ∈ placeholders w.val Flag.ofValueOf, w.ret[b.num]? = some b.Data := by
  refine ⟨?_, ?_, (walk_indices hw hn).2.2⟩
  · rw [Encode_ok env hok h args w log hw hn hid, hj]
  · show requested ([Call.NextWriter .TEXT] ++ (textCalls env h args w ++
      ([Call.Close] ++ w.ret.flatMap frameCalls))) = _
    rw [requested_append, requested_append, requested_append, requested_textCalls,
      requested_frames]
    rfl

/-- C4, witness: `Encode(Header{Type: Event, Namespace: "/a"}, &A, &B)`. -/
theorem Encode_frames_witness :
    Encode okEnv ⟨Event, [47, 97], 0, false⟩
        (some [.ptr (.buffer bufA), .ptr (.buffer bufB)]) [] =
      ([.NextWriter .TEXT, .WriteByte 53, .WriteByte 50, .WriteByte 45, .Write [47, 97],
        .WriteByte 44, .Write [91, 93, 10], .Close, .NextWriter .BINARY, .Write [1], .Close,
        .NextWriter .BINARY, .Write [2], .Close], .ok ()) := by
  have h := (Encode_frames okEnv ⟨Event, [47, 97], 0, false⟩
    (some [.ptr (.buffer bufA), .ptr (.buffer bufB)])
    ⟨.slice [.iface (.ptr (.buffer ⟨[1], true, 0⟩)), .iface (.ptr (.buffer ⟨[2], true, 1⟩))],
      [[1], [2]], 2⟩ [] (fun _ => rfl) rfl (by decide) (by decide) rfl).1
  rw [h]
  simp [textCalls, countCalls, restCalls, nsCalls, idCalls, jsonCalls, jsonError, flushCalls,
    frameCalls, writePacket.typ, decimal, sliceElems, okEnv, Event, Ack, binaryEvent, binaryAck]

/-! ## The comma, the unaddressable placeholder, the failing writer (C5, C6, C7) -/

theorem run_bind_def {α β : Type} (x : Run α) (f : α → Run β) (log : Log) :
    Run.bind x f log =
      match x log with
      | (log₁, .ok a) => f a log₁
      | (log₁, .err e) => (log₁, .err e)
      | (log₁, .panic p) => (log₁, .panic p) := rfl

/-- C5: the code at the failing input `Header{Type: Ack, Namespace: "/a",
ID: 0, NeedAck: true}` without arguments, on a writer that never fails.  The
id `0` is written (line 119) right after the namespace, with no `','` between
them: the guard of line 111 looks at `h.ID != 0`, not at `h.NeedAck`.  The text
frame is `3/a0`. -/
theorem writePacket_id_without_comma :
    Encode okEnv ⟨Ack, [47, 97], 0, true⟩ none [] =
      ([.NextWriter .TEXT, .WriteByte 51, .Write [47, 97], .WriteByte 48, .Close], .ok ()) :=
  rfl

/-- C6. When the text frame is obtained and the walk of the arguments reaches a
placeholder `b` that is not addressable (every struct met before it could be
stamped), `Encode` returns `errFailedBufferAddress`; the only calls it makes
are the request of the text frame and its close: no byte is written and no
binary frame is requested. -/
theorem Encode_unaddressable_placeholder (env : Env) (h : Header)
    (args : Option (List Value)) (log : Log) (l₁ l₂ : List Met) (fl : Flag) (b : Buffer)
    (hnw : env.answer log.length = none)
    (hmet : met (valueOfArgs args) Flag.ofValueOf = l₁ ++ (fl, some b) :: l₂)
    (hgood : ∀ m ∈ l₁, m.good = true) (ha : fl.addr = false) :
    Encode env h args log =
      (log ++ [.NextWriter .TEXT, .Close], .err .errFailedBufferAddress) := by
  have hs := scan_unaddressable l₁ l₂ fl (some b) hgood ha 0
  rw [← hmet] at hs
  have hw := attachBuffer_of_scan_err hs
  have hc : call env (.NextWriter .TEXT) log = (log ++ [.NextWriter .TEXT], .ok ()) := by
    simp [call, hnw]
  simp only [Encode, Run.bind_apply, run_bind_def, hc, writePacket, deferClose,
    writePacketBody, Run.lift_apply, hw]
  simp [call]

/-- C6, witness: `Encode(h, &A, Buffer{Data: [2]})`, the second placeholder
passed by value. -/
theorem Encode_unaddressable_placeholder_witness :
    Encode okEnv ⟨Event, [47, 97], 5, true⟩ (some [.ptr (.buffer bufA), .buffer bufB]) [] =
      ([.NextWriter .TEXT, .Close], .err .errFailedBufferAddress) :=
  Encode_unaddressable_placeholder okEnv ⟨Event, [47, 97], 5, true⟩
    (some [.ptr (.buffer bufA), .buffer bufB]) [] [(⟨true, false, false⟩, some bufA)] []
    ⟨false, false, false⟩ bufB rfl rfl (by decide) rfl

/-- C7. If a call of `Encode` other than a `Close` (so a `NextWriter`, a
`WriteByte`, a `Write` or a `Flush`) is answered with an error `e`, then
`Encode` returns exactly `e`, and every call it makes after the failed one is a
`Close`: no further frame is requested and nothing more is written. -/
theorem Encode_returns_writer_error (env : Env) (h : Header) (args : Option (List Value))
    (log : Log) (k : Nat) (c : Call) (e : Err)
    (hc : (Encode env h args log).1[log.length + k]? = some c) (hne : c ≠ .Close)
    (he : env.answer (log.length + k) = some e) :
    (Encode env h args log).2 = .err e ∧
      ∀ j c', log.length + k < j → (Encode env h args log).1[j]? = some c' → c' = .Close := by
  obtain ⟨new, hnew, p⟩ := aborts_Encode env h args log
  rw [hnew] at hc ⊢
  rw [List.getElem?_append_right (by omega), Nat.add_sub_cancel_left] at hc
  have hk : k < new.length := by
    by_contra hlt
    rw [List.getElem?_eq_none (Nat.le_of_not_lt hlt)] at hc
    cases hc
  obtain ⟨hr, hlater⟩ := p k e hk he (by rw [hc]; simpa using hne)
  refine ⟨hr, ?_⟩
  intro j c' hj hc'
  rw [List.getElem?_append_right (by omega)] at hc'
  have hjlt : j - log.length < new.length := by
    by_contra hlt
    rw [List.getElem?_eq_none (Nat.le_of_not_lt hlt)] at hc'
    cases hc'
  rw [hlater (j - log.length) (by omega) hjlt] at hc'
  exact (Option.some.inj hc').symm

/-- C7, witness: the write of the namespace (call number 2) fails with error
7; `Encode` returns that error and only closes the text frame. -/
theorem Encode_returns_writer_error_witness :
    Encode failEnv ⟨Event, [47, 97], 5, true⟩ (some [.ptr (.buffer bufA)]) [] =
        ([.NextWriter .TEXT, .WriteByte 53, .WriteByte 49, .WriteByte 45, .Write [47, 97],
          .Close], .err (.other 7)) ∧
      ((Encode failEnv ⟨Event, [47, 97], 5, true⟩ (some [.ptr (.buffer bufA)]) []).2 =
          .err (.other 7) ∧
        ∀ j c', ([] : Log).length + 4 < j →
          (Encode failEnv ⟨Event, [47, 97], 5, true⟩ (some [.ptr (.buffer bufA)]) []).1[j]? =
            some c' → c' = .Close) :=
  ⟨rfl, Encode_returns_writer_error failEnv ⟨Event, [47, 97], 5, true⟩
    (some [.ptr (.buffer bufA)]) [] 4 (.Write [47, 97]) (.other 7) rfl (by decide) rfl⟩

/-! ## The order of map keys (C9) -/

theorem metEntries_perm {e₁ e₂ : List (String × Value)} (efl : Flag) (hp : e₁.Perm e₂) :
    (metEntries e₁ efl).Perm (metEntries e₂ efl) := by
  induction hp with
  | nil => exact List.Perm.refl _
  | cons x _ ih =>
    obtain ⟨k, v⟩ := x
    simp only [metEntries]
    exact ih.append_left _
  | swap x y l =>
    obtain ⟨k₁, v₁⟩ := x
    obtain ⟨k₂, v₂⟩ := y
    simpa [metEntries] using List.perm_append_comm_assoc (met v₂ efl) (met v₁ efl) (metEntries l efl)
  | trans _ _ ih₁ ih₂ => exact ih₁.trans ih₂

theorem scan_index (l : List Met) : ∀ (idx : Nat) (w : Walk (List Met)), scan l idx = .ok w →
    w.index = (fun i => (i + 1) % 2 ^ 64)^[l.length] idx := by
  induction l with
  | nil =>
    intro idx w h
    simp only [scan, Result.ok.injEq] at h
    subst h
    rfl
  | cons m rest ih =>
    intro idx w h
    obtain ⟨fl, ob⟩ := m
    obtain ⟨-, b, ws, rfl, hs, rfl⟩ := scan_cons_ok fl ob rest idx w h
    rw [List.length_cons, Function.iterate_succ_apply]
    exact ih _ ws hs

theorem scan_perm {l₁ l₂ : List Met} (hp : l₁.Perm l₂) (idx : Nat) (w₁ : Walk (List Met))
    (h₁ : scan l₁ idx = .ok w₁) :
    ∃ w₂, scan l₂ idx = .ok w₂ ∧ w₂.ret.Perm w₁.ret ∧ w₂.index = w₁.index := by
  obtain ⟨hg, hr₁, -, -⟩ := scan_ok l₁ idx w₁ h₁
  obtain ⟨w₂, h₂⟩ := scan_good l₂ idx (fun m hm => hg m (hp.mem_iff.mpr hm))
  obtain ⟨-, hr₂, -, -⟩ := scan_ok l₂ idx w₂ h₂
  refine ⟨w₂, h₂, ?_, ?_⟩
  · rw [hr₁, hr₂]
    exact ((hp.symm.filterMap _).map _)
  · rw [scan_index l₂ idx w₂ h₂, scan_index l₁ idx w₁ h₁, hp.length_eq]

/-- C9, as stated, fails: the map `{"a": &A, "b": &B}` walked with the keys in
the order `a, b` and in the order `b, a` (the same entries, and `MapKeys`
promises no order) gives `A` the index 0 in one run and 1 in the other, and
the two buffer lists differ. -/
theorem attachBuffer_map_key_order_matters :
    mapAB.Perm mapBA ∧
    attachBuffer (.map mapAB) Flag.ofValueOf 0 =
      .ok ⟨.map [("a", .ptr (.buffer ⟨[1], true, 0⟩)), ("b", .ptr (.buffer ⟨[2], true, 1⟩))],
        [[1], [2]], 2⟩ ∧
    attachBuffer (.map mapBA) Flag.ofValueOf 0 =
      .ok ⟨.map [("b", .ptr (.buffer ⟨[2], true, 0⟩)), ("a", .ptr (.buffer ⟨[1], true, 1⟩))],
        [[2], [1]], 2⟩ ∧
    ([[1], [2]] : List (List Nat)) ≠ [[2], [1]] :=
  ⟨List.Perm.swap _ _ _, rfl, rfl, by decide⟩

/-- C9 (amended). The walker visits the entries of a map in the order `MapKeys`
returns the keys.  Two walks of the same map (the same entries, with the same
flags and from the same index) that differ only in that order agree on this:
if one succeeds so does the other, they return the same buffers up to order,
and they leave the index counter at the same value. -/
theorem attachBuffer_map_order_independent (e₁ e₂ : List (String × Value)) (fl : Flag)
    (idx : Nat) (w₁ : Walk Value) (hp : e₁.Perm e₂)
    (h₁ : attachBuffer (.map e₁) fl idx = .ok w₁) :
    ∃ w₂, attachBuffer (.map e₂) fl idx = .ok w₂ ∧ w₂.ret.Perm w₁.ret ∧
      w₂.index = w₁.index := by
  have hs₁ := attachBuffer_ok_scan h₁
  have hm : (met (.map e₁) fl).Perm (met (.map e₂) fl) := by
    simpa [met] using metEntries_perm fl.mapIndex hp
  obtain ⟨s₂, hs₂, hr, hi⟩ := scan_perm hm idx _ hs₁
  obtain ⟨w₂, hw₂, rfl⟩ := attachBuffer_of_scan_ok hs₂
  exact ⟨w₂, hw₂, hr, hi⟩

/-- C9, witness: the two key orders of `{"a": &A, "b": &B}`. -/
theorem attachBuffer_map_order_independent_witness :
    ∃ w₂, attachBuffer (.map mapBA) Flag.ofValueOf 0 = .ok w₂ ∧
      w₂.ret.Perm [[1], [2]] ∧ w₂.index = 2 :=
  attachBuffer_map_order_independent mapAB mapBA Flag.ofValueOf 0
    ⟨.map [("a", .ptr (.buffer ⟨[1], true, 0⟩)), ("b", .ptr (.buffer ⟨[2], true, 1⟩))],
      [[1], [2]], 2⟩ (List.Perm.swap _ _ _) rfl

/-! ## The URL dialed by the websocket transport (C10) -/

/-- C10. For every URL, timestamp and request header, `Transport.Dial` hands
to the dialer the URL `dialURL`: its scheme is `ws` for `http`, `wss` for
`https` and the given scheme otherwise; its query parameter `transport` is the
single value `Transport.Name() = "websocket"` whatever was bound to it before,
and its query parameter `t` is the client timestamp. -/
theorem Dial_url (timestamp : String) (u : URL) :
    (∀ (Socket Response ReqHeader : Type)
        (dialer : URL → ReqHeader → Handshake Socket Response) (requestHeader : ReqHeader),
      Transport.Dial dialer timestamp u requestHeader =
        Transport.finish (Transport.dialURL timestamp u)
          (dialer (Transport.dialURL timestamp u) requestHeader)) ∧
    (Transport.dialURL timestamp u).Scheme =
      (if u.Scheme = "http" then "ws" else if u.Scheme = "https" then "wss" else u.Scheme) ∧
    (Transport.dialURL timestamp u).Query "transport" = ["websocket"] ∧
    (Transport.dialURL timestamp u).Query.Get "transport" = Transport.Name ∧
    (Transport.dialURL timestamp u).Query "t" = [timestamp] ∧
    (Transport.dialURL timestamp u).Query.Get "t" = timestamp ∧
    (Transport.dialURL timestamp u).Rest = u.Rest := by
  refine ⟨fun _ _ _ _ _ => rfl, rfl, ?_, ?_, ?_, ?_, rfl⟩
  · simp [Transport.dialURL, Values.Set, Transport.Name]
  · simp [Transport.dialURL, Values.Set, Values.Get, Transport.Name]
  · simp [Transport.dialURL, Values.Set]
  · simp [Transport.dialURL, Values.Set, Values.Get]

/-! ## Decoding what was encoded (C8) -/

mutual
theorem splice_erase (frames : List (List Nat)) : ∀ (v : Value) (fl : Flag),
    (∀ m ∈ met v fl, ∃ b, m.2 = some b ∧ frames[b.num]? = some b.Data) →
    splice frames (erase v) = some v
  | .ptr e, fl, h => by
    have ih := splice_erase frames e fl.ptrElem (by simpa [met] using h)
    simp [erase, splice, ih]
  | .iface e, fl, h => by
    have ih := splice_erase frames e fl.ifaceElem (by simpa [met] using h)
    simp [erase, splice, ih]
  | .buffer b, fl, h => by
    obtain ⟨b₁, hb, hd⟩ := h (fl, some b) (by simp [met])
    cases hb
    simp [erase, splice, hd]
  | .struct name fields, fl, h => by
    by_cases hn : name = bufferTypeName
    · obtain ⟨b₁, hb, -⟩ := h (fl, none) (by simp [met, hn])
      cases hb
    · have ih := splice_eraseFields frames fields fl (by simpa [met, hn] using h)
      simp [erase, splice, ih]
  | .array elems, fl, h => by
    have ih := splice_eraseElems frames elems fl.arrayIndex (by simpa [met] using h)
    simp [erase, splice, ih]
  | .slice elems, fl, h => by
    have ih := splice_eraseElems frames elems fl.sliceIndex (by simpa [met] using h)
    simp [erase, splice, ih]
  | .map entries, fl, h => by
    have ih := splice_eraseEntries frames entries fl.mapIndex (by simpa [met] using h)
    simp [erase, splice, ih]
  | .invalid, _, _ => by simp [erase, splice]
  | .scalar p, _, _ => by simp [erase, splice]
theorem splice_eraseFields (frames : List (List Nat)) :
    ∀ (fields : List (FieldKind × Value)) (fl : Flag),
    (∀ m ∈ metFields fields fl, ∃ b, m.2 = some b ∧ frames[b.num]? = some b.Data) →
    spliceFields frames (eraseFields fields) = some fields
  | [], _, _ => by simp [eraseFields, spliceFields]
  | (k, v) :: rest, fl, h => by
    have ih₁ := splice_erase frames v (fl.field k)
      (fun m hm => h m (by simp [metFields, hm]))
    have ih₂ := splice_eraseFields frames rest fl
      (fun m hm => h m (by simp [metFields, hm]))
    simp [eraseFields, spliceFields, ih₁, ih₂]
theorem splice_eraseElems (frames : List (List Nat)) :
    ∀ (elems : List Value) (efl : Flag),
    (∀ m ∈ metElems elems efl, ∃ b, m.2 = some b ∧ frames[b.num]? = some b.Data) →
    spliceElems frames (eraseElems elems) = some elems
  | [], _, _ => by simp [eraseElems, spliceElems]
  | v :: rest, efl, h => by
    have ih₁ := splice_erase frames v efl (fun m hm => h m (by simp [metElems, hm]))
    have ih₂ := splice_eraseElems frames rest efl
      (fun m hm => h m (by simp [metElems, hm]))
    simp [eraseElems, spliceElems, ih₁, ih₂]
theorem splice_eraseEntries (frames : List (List Nat)) :
    ∀ (entries : List (String × Value)) (efl : Flag),
    (∀ m ∈ metEntries entries efl, ∃ b, m.2 = some b ∧ frames[b.num]? = some b.Data) →
    spliceEntries frames (eraseEntries entries) = some entries
  | [], _, _ => by simp [eraseEntries, spliceEntries]
  | (k, v) :: rest, efl, h => by
    have ih₁ := splice_erase frames v efl (fun m hm => h m (by simp [metEntries, hm]))
    have ih₂ := splice_eraseEntries frames rest efl
      (fun m hm => h m (by simp [metEntries, hm]))
    simp [eraseEntries, spliceEntries, ih₁, ih₂]
end

theorem scan_val_some (l : List Met) : ∀ (idx : Nat) (w : Walk (List Met)), scan l idx = .ok w →
    ∀ m ∈ w.val, ∃ b, m.2 = some b := by
  induction l with
  | nil =>
    intro idx w h
    simp only [scan, Result.ok.injEq] at h
    subst h
    simp
  | cons m rest ih =>
    intro idx w h
    obtain ⟨fl, ob⟩ := m
    obtain ⟨-, b, ws, rfl, hs, rfl⟩ := scan_cons_ok fl ob rest idx w h
    intro m hm
    rcases List.mem_cons.mp hm with rfl | hm
    · exact ⟨_, rfl⟩
    · exact ih _ ws hs m hm

/-- After a successful walk from 0, every struct met in the stamped value is a
placeholder whose data sits in the returned list at its index. -/
theorem walk_met_data {v : Value} {fl : Flag} {w : Walk Value}
    (h : attachBuffer v fl 0 = .ok w) (hn : w.ret.length < 2 ^ 64) :
    ∀ m ∈ met w.val fl, ∃ b, m.2 = some b ∧ w.ret[b.num]? = some b.Data := by
  intro m hm
  obtain ⟨b, hb⟩ := scan_val_some _ _ _ (attachBuffer_ok_scan h) m hm
  refine ⟨b, hb, (walk_indices h hn).2.2 b ?_⟩
  exact List.mem_filterMap.mpr ⟨m, hm, hb⟩

theorem parseUint_stop (acc : Nat) (rest : List Nat) (h : startsWithDigit rest = false) :
    parseUint acc rest = (acc, rest) := by
  cases rest with
  | nil => rfl
  | cons c r =>
    simp only [startsWithDigit, decide_eq_false_iff_not] at h
    simp [parseUint, h]

theorem parseUint_digits (rest : List Nat) (h : startsWithDigit rest = false) :
    ∀ (ds : List Nat) (acc : Nat), (∀ d ∈ ds, d < 10) →
      parseUint acc (ds.map (· + 48) ++ rest) = (ds.foldl (fun a d => a * 10 + d) acc, rest) := by
  intro ds
  induction ds with
  | nil => intro acc _; simpa using parseUint_stop acc rest h
  | cons d ds ih =>
    intro acc hd
    have hd₁ : d < 10 := hd d (List.mem_cons_self _ _)
    have hc : 48 ≤ d + 48 ∧ d + 48 ≤ 57 := by omega
    simp only [List.map_cons, List.cons_append, parseUint, hc, and_self, if_true,
      Nat.add_sub_cancel, List.foldl_cons]
    exact ih _ (fun x hx => hd x (List.mem_cons_of_mem _ hx))

theorem foldr_ofDigits (L : List Nat) :
    L.foldr (fun d a => a * 10 + d) 0 = Nat.ofDigits 10 L := by
  induction L with
  | nil => rfl
  | cons d L ih =>
    rw [List.foldr_cons, ih, Nat.ofDigits_cons]
    ring

theorem decimal_eq_bigEndian (n : Nat) :
    decimal n = (bigEndian (Nat.log 10 n) n).map (· + 48) := by
  by_cases h0 : n = 0
  · subst h0
    simp [decimal, bigEndian]
  · rw [bigEndian_log n h0]
    simp [decimal, h0]

theorem foldl_bigEndian (n : Nat) :
    (bigEndian (Nat.log 10 n) n).foldl (fun a d => a * 10 + d) 0 = n := by
  have h := bigEndian_ofDigits (Nat.log 10 n) n
  rw [← foldr_ofDigits, List.foldr_reverse] at h
  exact h

theorem parseUint_decimal (n : Nat) (rest : List Nat) (h : startsWithDigit rest = false) :
    parseUint 0 (decimal n ++ rest) = (n, rest) := by
  rw [decimal_eq_bigEndian, parseUint_digits rest h _ 0
    (bigEndian_lt _ n (Nat.lt_pow_succ_log_self (by norm_num) n)), foldl_bigEndian]

theorem decimal_cons (n : Nat) : ∃ d ds, decimal n = (d + 48) :: ds ∧ d < 10 := by
  rw [decimal_eq_bigEndian]
  have hlt := bigEndian_lt _ n (Nat.lt_pow_succ_log_self (by norm_num) n)
  have hlen := bigEndian_length (Nat.log 10 n) n
  cases hb : bigEndian (Nat.log 10 n) n with
  | nil => rw [hb] at hlen; simp at hlen
  | cons d ds =>
    rw [hb] at hlt
    exact ⟨d, ds.map (· + 48), by simp, hlt d (List.mem_cons_self _ _)⟩

theorem parseNamespace_append (rest : List Nat) :
    ∀ (ns : List Nat), 44 ∉ ns → parseNamespace (ns ++ 44 :: rest) = (ns, rest) := by
  intro ns
  induction ns with
  | nil => intro _; simp [parseNamespace]
  | cons c ns ih =>
    intro h
    have hc : c ≠ 44 := fun hc => h (by simp [hc])
    have hns : 44 ∉ ns := fun hm => h (List.mem_cons_of_mem _ hm)
    simp [parseNamespace, hc, ih hns]

theorem written_append (l₁ l₂ : List Call) : written (l₁ ++ l₂) = written l₁ ++ written l₂ := by
  induction l₁ with
  | nil => rfl
  | cons c rest ih => cases c <;> simp [written, ih]

theorem written_writeBytes (l : List Nat) : written (l.map Call.WriteByte) = l := by
  induction l with
  | nil => rfl
  | cons a rest ih => simp [written, ih]

theorem payload_append (r : List Call) : ∀ (l : List Call), requested l = [] →
    payload (l ++ r) = written l ++ payload r := by
  intro l
  induction l with
  | nil => intro _; rfl
  | cons c rest ih =>
    intro h
    cases c with
    | NextWriter ft => simp [requested] at h
    | WriteByte b => simpa [payload, written] using ih (by simpa [requested] using h)
    | Write p => simpa [payload, written] using ih (by simpa [requested] using h)
    | Flush => simpa [payload, written] using ih (by simpa [requested] using h)
    | Close => simpa [payload, written] using ih (by simpa [requested] using h)

theorem framesOf_append (r : List Call) : ∀ (l : List Call), requested l = [] →
    framesOf (l ++ r) = framesOf r := by
  intro l
  induction l with
  | nil => intro _; rfl
  | cons c rest ih =>
    intro h
    cases c with
    | NextWriter ft => simp [requested] at h
    | WriteByte b => simpa [framesOf] using ih (by simpa [requested] using h)
    | Write p => simpa [framesOf] using ih (by simpa [requested] using h)
    | Flush => simpa [framesOf] using ih (by simpa [requested] using h)
    | Close => simpa [framesOf] using ih (by simpa [requested] using h)

theorem payload_frames (bs : List (List Nat)) : payload (bs.flatMap frameCalls) = [] := by
  cases bs <;> simp [frameCalls, payload]

theorem framesOf_frames (bs : List (List Nat)) :
    framesOf (bs.flatMap frameCalls) = bs.map fun b => (FrameType.BINARY, b) := by
  induction bs with
  | nil => rfl
  | cons b rest ih =>
    have hp := payload_frames rest
    rw [List.flatMap_cons, List.map_cons]
    show (FrameType.BINARY, b ++ payload (rest.flatMap frameCalls)) ::
      framesOf (rest.flatMap frameCalls) = _
    rw [hp, ih, List.append_nil]

/-- The frames `Encode` puts on the wire when it makes the calls of
`Encode_ok`: the text frame with the bytes of `textCalls`, then one binary
frame per buffer. -/
theorem framesOf_Encode (env : Env) (h : Header) (args : Option (List Value)) (w : Walk Value) :
    framesOf (.NextWriter .TEXT :: (textCalls env h args w ++
        .Close :: w.ret.flatMap frameCalls)) =
      (.TEXT, written (textCalls env h args w)) :: w.ret.map fun b => (FrameType.BINARY, b) := by
  have hreq := requested_textCalls env h args w
  show (FrameType.TEXT, payload (textCalls env h args w ++ .Close :: w.ret.flatMap frameCalls)) ::
    framesOf (textCalls env h args w ++ .Close :: w.ret.flatMap frameCalls) = _
  rw [payload_append _ _ hreq, framesOf_append _ _ hreq]
  simp only [payload, framesOf, payload_frames, framesOf_frames, List.append_nil]

theorem count_step (typ n : Nat) (rest : List Nat) :
    (if typ = binaryEvent ∨ typ = binaryAck then
        match parseUint 0
          ((if typ = binaryAck ∨ typ = binaryEvent then decimal n ++ [45] else []) ++ rest) with
        | (n, 45 :: r) => some (n, r)
        | _ => none
      else some (0, (if typ = binaryAck ∨ typ = binaryEvent then decimal n ++ [45] else []) ++ rest)) =
      some (if typ = binaryEvent ∨ typ = binaryAck then n else 0, rest) := by
  by_cases hb : typ = binaryEvent ∨ typ = binaryAck
  · have hb' : typ = binaryAck ∨ typ = binaryEvent := hb.symm
    have hp : parseUint 0 (decimal n ++ 45 :: rest) = (n, 45 :: rest) :=
      parseUint_decimal n (45 :: rest) (by simp [startsWithDigit])
    simp only [hb, hb', if_true, List.append_assoc, List.singleton_append, hp]
  · have hb' : ¬ (typ = binaryAck ∨ typ = binaryEvent) := fun h => hb h.symm
    simp only [hb, hb', if_false, List.nil_append]

theorem parseNamespace_all : ∀ (ns : List Nat), 44 ∉ ns → parseNamespace ns = (ns, []) := by
  intro ns
  induction ns with
  | nil => intro _; rfl
  | cons c ns ih =>
    intro h
    have hc : c ≠ 44 := fun hc => h (by simp [hc])
    have hns : 44 ∉ ns := fun hm => h (List.mem_cons_of_mem _ hm)
    simp [parseNamespace, hc, ih hns]

theorem ns_step (hasNamespace : List Nat → Bool) (ns : List Nat) (comma : Prop)
    [Decidable comma] (rest : List Nat) (hcomma : 44 ∉ ns)
    (hrule : hasNamespace
      ((if ns ≠ [] then ns ++ (if comma then [44] else []) else []) ++ rest) =
        decide (ns ≠ []))
    (hrest : ¬ comma → ns ≠ [] → rest = []) :
    (if hasNamespace
          ((if ns ≠ [] then ns ++ (if comma then [44] else []) else []) ++ rest) then
        parseNamespace ((if ns ≠ [] then ns ++ (if comma then [44] else []) else []) ++ rest)
      else ([], (if ns ≠ [] then ns ++ (if comma then [44] else []) else []) ++ rest)) =
      (ns, rest) := by
  rw [hrule]
  by_cases hne : ns = []
  · subst hne
    simp
  · by_cases hc : comma
    · simp only [hne, ne_eq, not_false_eq_true, if_true, hc, decide_True]
      rw [List.append_assoc, List.singleton_append]
      exact parseNamespace_append rest ns hcomma
    · have hr := hrest hc hne
      subst hr
      simp only [hne, ne_eq, not_false_eq_true, if_true, hc, if_false, decide_True,
        List.append_nil]
      exact parseNamespace_all ns hcomma

theorem id_step (id : Nat) (needAck : Bool) (body : List Nat) (hack : needAck = false → id = 0)
    (hbody : startsWithDigit body = false) :
    startsWithDigit ((if needAck then decimal id else []) ++ body) = needAck ∧
    (if startsWithDigit ((if needAck then decimal id else []) ++ body) then
        parseUint 0 ((if needAck then decimal id else []) ++ body)
      else (0, (if needAck then decimal id else []) ++ body)) = (id, body) := by
  cases needAck with
  | false => simp [hbody, hack rfl]
  | true =>
    obtain ⟨d, ds, hd, hlt⟩ := decimal_cons id
    have hs : startsWithDigit (decimal id ++ body) = true := by
      rw [hd]
      simp only [List.cons_append, startsWithDigit, decide_eq_true_eq]
      omega
    simp only [if_true, hs, parseUint_decimal id body hbody, and_self]

/-- The modelled decoder reads back what the wire format of §6 lays out: type
digit, count segment for a binary type, namespace with its `','`, id, body. -/
theorem Decode_text (hasNamespace : List Nat → Bool) (unmarshal : List Nat → Option Value)
    (typ n : Nat) (ns : List Nat) (comma : Prop) [Decidable comma] (id : Nat) (needAck : Bool)
    (body : List Nat) (bins : List (List Nat))
    (ht : typ ≤ 6) (hcomma : 44 ∉ ns)
    (hrule : hasNamespace
      ((if ns ≠ [] then ns ++ (if comma then [44] else []) else []) ++
        ((if needAck then decimal id else []) ++ body)) = decide (ns ≠ []))
    (hrest : ¬ comma → ns ≠ [] → needAck = false ∧ body = [])
    (hack : needAck = false → id = 0) (hbody : startsWithDigit body = false)
    (hcount : (if typ = binaryEvent ∨ typ = binaryAck then n else 0) = bins.length) :
    Decode hasNamespace unmarshal
        ((.TEXT, (typ + 48) :: ((if typ = binaryAck ∨ typ = binaryEvent then decimal n ++ [45]
            else []) ++
          ((if ns ≠ [] then ns ++ (if comma then [44] else []) else []) ++
            ((if needAck then decimal id else []) ++ body)))) ::
          bins.map fun b => (FrameType.BINARY, b)) =
      if body = [] then some (⟨typ, ns, id, needAck⟩, none)
      else
        (unmarshal body).bind fun v =>
          (splice bins v).map fun v₁ => (⟨typ, ns, id, needAck⟩, some v₁) := by
  obtain ⟨hid₁, hid₂⟩ := id_step id needAck body hack hbody
  have hnsr := ns_step hasNamespace ns comma _ hcomma hrule (by
    intro hc hne
    obtain ⟨h₁, h₂⟩ := hrest hc hne
    simp [h₁, h₂])
  have hd : 48 ≤ typ + 48 ∧ typ + 48 ≤ 54 := by omega
  have hall : (List.map (fun b => (FrameType.BINARY, b)) bins).all
      (fun f => decide (f.1 = FrameType.BINARY)) = true := by
    simp
  have htake : List.take bins.length (List.map (fun b => (FrameType.BINARY, b)) bins) =
      List.map (fun b => (FrameType.BINARY, b)) bins :=
    List.take_of_length_le (by simp)
  have hsnd : List.map Prod.snd (List.map (fun b => (FrameType.BINARY, b)) bins) = bins := by
    simp [Function.comp_def]
  rw [hid₁] at hid₂
  unfold Decode
  simp only [hd, and_self, if_true, Nat.add_sub_cancel, count_step, Option.some_bind, hnsr,
    hid₁, hid₂, hcount, List.length_map, lt_irrefl, htake, hsnd, hall, false_or,
    not_true_eq_false, if_false]
  cases body <;> simp

theorem written_count (typ n : Nat) (rest : List Call) :
    written (countCalls typ n ++ rest) =
      (if typ = binaryAck ∨ typ = binaryEvent then decimal n ++ 45 :: written rest
        else written rest) := by
  unfold countCalls
  split
  · simp [written_append, written_writeBytes, written]
  · rfl

theorem written_restCalls (env : Env) (h : Header) (args : Option (List Value)) (w : Walk Value)
    (hje : jsonError env (sliceElems w.val) = none) :
    written (restCalls env h args w) =
      (if h.Namespace ≠ [] then
          h.Namespace ++ (if h.ID ≠ 0 ∨ args.isSome then [44] else [])
        else []) ++
        ((if h.NeedAck then decimal h.ID else []) ++
          written (jsonCalls env (sliceElems w.val))) := by
  have h₂ : written (nsCalls h args) =
      (if h.Namespace ≠ [] then
          h.Namespace ++ (if h.ID ≠ 0 ∨ args.isSome then [44] else [])
        else []) := by
    unfold nsCalls
    split
    · split <;> simp [written]
    · rfl
  have h₃ : written (idCalls h) = (if h.NeedAck then decimal h.ID else []) := by
    unfold idCalls
    split
    · exact written_writeBytes _
    · rfl
  have h₅ : written (flushCalls env) = [] := by
    unfold flushCalls
    split <;> rfl
  unfold restCalls
  rw [hje]
  simp only [written_append, h₂, h₃, h₅, List.append_nil, List.append_assoc]

theorem written_textCalls (env : Env) (h : Header) (args : Option (List Value)) (w : Walk Value)
    (hje : jsonError env (sliceElems w.val) = none)
    (ht : writePacket.typ h w.ret.length ≤ 6) :
    written (textCalls env h args w) =
      (writePacket.typ h w.ret.length + 48) ::
        ((if writePacket.typ h w.ret.length = binaryAck ∨
              writePacket.typ h w.ret.length = binaryEvent then decimal w.index ++ [45]
            else []) ++
          ((if h.Namespace ≠ [] then
              h.Namespace ++ (if h.ID ≠ 0 ∨ args.isSome then [44] else [])
            else []) ++
            ((if h.NeedAck then decimal h.ID else []) ++
              written (jsonCalls env (sliceElems w.val))))) := by
  have hmod : (writePacket.typ h w.ret.length + 48) % 256 = writePacket.typ h w.ret.length + 48 :=
    Nat.mod_eq_of_lt (by omega)
  show written (Call.WriteByte _ :: (countCalls _ _ ++ restCalls env h args w)) = _
  rw [written, written_count, hmod, written_restCalls env h args w hje]
  split <;> simp

theorem sliceElems_eq {v : Value} {a : Value} {rest : List Value}
    (h : sliceElems v = a :: rest) : v = .slice (a :: rest) := by
  cases v <;> simp_all [sliceElems]

theorem attachElems_length : ∀ (elems : List Value) (efl : Flag) (idx : Nat)
    (ws : Walk (List Value)), attachElems elems efl idx = .ok ws →
      ws.val.length = elems.length := by
  intro elems
  induction elems with
  | nil =>
    intro efl idx ws h
    simp only [attachElems, Result.ok.injEq] at h
    subst h
    rfl
  | cons v rest ih =>
    intro efl idx ws h
    rw [attachElems] at h
    cases hv : attachBuffer v efl idx with
    | ok w₁ =>
      rw [hv] at h
      simp only [Result.bind_ok] at h
      cases hr : attachElems rest efl w₁.index with
      | ok ws₁ =>
        rw [hr] at h
        simp only [Result.bind_ok, Result.ok.injEq] at h
        subst h
        simp [ih efl _ ws₁ hr]
      | err e => rw [hr] at h; simp at h
      | panic p => rw [hr] at h; simp at h
    | err e => rw [hv] at h; simp at h
    | panic p => rw [hv] at h; simp at h

theorem sliceElems_length (args : Option (List Value)) (w : Walk Value)
    (hw : attachBuffer (valueOfArgs args) Flag.ofValueOf 0 = .ok w) :
    (sliceElems w.val).length = (args.getD []).length := by
  rw [valueOfArgs, attachBuffer] at hw
  cases hr : attachElems ((args.getD []).map Value.iface) Flag.ofValueOf.sliceIndex 0 with
  | ok ws =>
    rw [hr] at hw
    simp only [Result.bind_ok, Result.ok.injEq] at hw
    subst hw
    simpa [sliceElems] using attachElems_length _ _ _ ws hr
  | err e => rw [hr] at hw; simp at hw
  | panic p => rw [hr] at hw; simp at hw

/-- C8, as stated, fails, for what `Encode` puts on the wire.  (1) An id given
without `NeedAck` is not written (line 118): the headers `{Event, "", 5, false}`
and `{Event, "", 0, false}` with the same argument give exactly the same calls,
and the decoder modelled from the spec returns the header with id 0.  (2) Only
`args[0]` is marshalled (line 125): `Encode(h, [1], [2])` and `Encode(h, [1])`
give the same calls.  (3) A body that starts with a digit runs into the id:
id 1 with the argument 5 and no id with the argument 15 give the same frames.
(4) A namespace with a `','`: `"/a,1"` without id and `"/a"` with id 1 give
the same frames.  (5) A namespace that looks like an id: namespace `"5"` and
id 5 give the same frames.  (6) A header of type `Connect` with a placeholder:
the text frame declares no buffer, the decoder collects no binary frame and
fails on the placeholder.  No decoder returns both events of a pair with the
same frames. -/
theorem Encode_drops_id_without_ack :
    Encode okEnv ⟨Event, [], 5, false⟩ (some [.scalar "x"]) [] =
      Encode okEnv ⟨Event, [], 0, false⟩ (some [.scalar "x"]) [] ∧
    Decode slashRule (toyUnmarshal (.iface (.scalar "x")))
        (framesOf (Encode okEnv ⟨Event, [], 5, false⟩ (some [.scalar "x"]) []).1) =
      some (⟨Event, [], 0, false⟩, some (.iface (.scalar "x"))) ∧
    Encode textEnv ⟨Event, [], 0, false⟩ (some [.scalar "[1]", .scalar "[2]"]) [] =
      Encode textEnv ⟨Event, [], 0, false⟩ (some [.scalar "[1]"]) [] ∧
    framesOf (Encode textEnv ⟨Event, [], 1, true⟩ (some [.scalar "5"]) []).1 =
      framesOf (Encode textEnv ⟨Event, [], 0, false⟩ (some [.scalar "15"]) []).1 ∧
    framesOf (Encode textEnv ⟨Event, [47, 97, 44, 49], 0, false⟩ none []).1 =
      framesOf (Encode textEnv ⟨Event, [47, 97], 1, true⟩ none []).1 ∧
    framesOf (Encode textEnv ⟨Event, [53], 0, false⟩ none []).1 =
      framesOf (Encode textEnv ⟨Event, [], 5, true⟩ none []).1 ∧
    Decode slashRule (toyUnmarshal (.iface (.ptr (.buffer ⟨[], true, 0⟩))))
        (framesOf (Encode okEnv ⟨Connect, [], 0, false⟩ (some [.ptr (.buffer bufA)]) []).1) =
      none := by
  refine ⟨rfl, rfl, rfl, rfl, rfl, rfl, rfl⟩

/-- C8 (amended).  Take an event with at most one argument and a header whose
type is one of the seven types, but not `Connect`, `Disconnect` or `Error` when
the argument holds a placeholder, whose id (a `uint64`) is 0 unless `NeedAck`,
and whose namespace has no `','`.  Leave out the header with a namespace, `NeedAck` and
id 0 sent without arguments (the missing `','` of C5).  Suppose encoding
succeeds: no call on the writer fails, the walk succeeds, and the stamped
argument marshals to a JSON text that does not start with a digit.  Suppose
the decoder's rule for telling whether a namespace is present, which the spec
leaves open, answers right on the text `Encode` wrote, and the JSON decoder
reads the body as the stamped argument with every placeholder reduced to its
marker (index, no data).  Then `Encode` returns nil, and the decoder modelled
from the spec, fed the frames `Encode` produced, returns the header with the
binary promotion applied and the argument (none when there was none) with the
data of every placeholder restored. -/
theorem Decode_Encode (env : Env) (hasNamespace : List Nat → Bool)
    (unmarshal : List Nat → Option Value) (h : Header) (args : Option (List Value))
    (w : Walk Value) (log : Log)
    (hok : ∀ k, env.answer k = none)
    (hw : attachBuffer (valueOfArgs args) Flag.ofValueOf 0 = .ok w)
    (hn : w.ret.length < 2 ^ 64) (hargs : (args.getD []).length ≤ 1)
    (hj : ∀ a₁ ∈ sliceElems w.val, ∃ p, env.json a₁ = .ok p ∧
      unmarshal (p ++ [10]) = some (erase a₁) ∧ startsWithDigit (p ++ [10]) = false)
    (ht : h.Typ ≤ binaryAck)
    (hb : 0 < w.ret.length →
      h.Typ = Event ∨ h.Typ = Ack ∨ h.Typ = binaryEvent ∨ h.Typ = binaryAck)
    (hcomma : 44 ∉ h.Namespace)
    (hrule : hasNamespace (written (restCalls env h args w)) = decide (h.Namespace ≠ []))
    (hid : h.ID < 2 ^ 64) (hack : h.NeedAck = false → h.ID = 0)
    (hslip : h.Namespace ≠ [] → h.NeedAck = true → h.ID ≠ 0 ∨ args.isSome) :
    (Encode env h args log).2 = .ok () ∧
    Decode hasNamespace unmarshal (framesOf ((Encode env h args log).1.drop log.length)) =
      some (⟨writePacket.typ h w.ret.length, h.Namespace, h.ID, h.NeedAck⟩,
        (sliceElems w.val).head?) := by
  have hlen := sliceElems_length args w hw
  have hje : jsonError env (sliceElems w.val) = none := by
    cases hs : sliceElems w.val with
    | nil => rfl
    | cons a₁ rest =>
      obtain ⟨p, hp, -, -⟩ := hj a₁ (by simp [hs])
      simp [jsonError, hp]
  have henc := Encode_ok env hok h args w log hw hn hid
  rw [hje] at henc
  have hi := walk_index_eq hw hn
  have htyp : writePacket.typ h w.ret.length ≤ 6 := by
    unfold writePacket.typ
    split
    · rename_i hc
      rcases hc.2 with h₁ | h₁ <;> simp [h₁, Event, Ack]
    · exact ht
  have hcount : (if writePacket.typ h w.ret.length = binaryEvent ∨
      writePacket.typ h w.ret.length = binaryAck then w.index else 0) = w.ret.length := by
    by_cases hpos : 0 < w.ret.length
    · rcases hb hpos with h₁ | h₁ | h₁ | h₁ <;>
        simp [writePacket.typ, hpos, h₁, hi, Event, Ack, binaryEvent, binaryAck]
    · have h0 : w.ret.length = 0 := by omega
      by_cases hbin : h.Typ = binaryEvent ∨ h.Typ = binaryAck
      · simp [writePacket.typ, h0, hbin, hi]
      · simp [writePacket.typ, h0, hbin]
  have hbody : startsWithDigit (written (jsonCalls env (sliceElems w.val))) = false := by
    cases hs : sliceElems w.val with
    | nil => rfl
    | cons a₁ rest =>
      obtain ⟨p, hp, -, hd⟩ := hj a₁ (by simp [hs])
      simpa [jsonCalls, hp, written] using hd
  have hrest : ¬ (h.ID ≠ 0 ∨ args.isSome) → h.Namespace ≠ [] →
      h.NeedAck = false ∧ written (jsonCalls env (sliceElems w.val)) = [] := by
    intro hc hne
    have hnone : args = none := by
      cases args with
      | none => rfl
      | some l => exact absurd (Or.inr rfl) hc
    constructor
    · cases hna : h.NeedAck with
      | false => rfl
      | true => exact absurd (hslip hne hna) hc
    · have h0 : sliceElems w.val = [] := by
        apply List.eq_nil_of_length_eq_zero
        rw [hlen, hnone]
        rfl
      rw [h0]
      rfl
  have hrule₁ := hrule
  rw [written_restCalls env h args w hje] at hrule₁
  have hdec := Decode_text hasNamespace unmarshal (writePacket.typ h w.ret.length) w.index
    h.Namespace (h.ID ≠ 0 ∨ args.isSome) h.ID h.NeedAck
    (written (jsonCalls env (sliceElems w.val))) w.ret htyp hcomma hrule₁ hrest hack hbody hcount
  refine ⟨by rw [henc], ?_⟩
  rw [henc, List.drop_left, framesOf_Encode, written_textCalls env h args w hje htyp, hdec]
  cases hs : sliceElems w.val with
  | nil => simp [jsonCalls, written]
  | cons a₁ rest =>
    have hrest₁ : rest = [] := by
      have : (a₁ :: rest).length ≤ 1 := by rw [← hs, hlen]; exact hargs
      cases rest with
      | nil => rfl
      | cons b r => simp at this
    subst hrest₁
    obtain ⟨p, hp, hu, -⟩ := hj a₁ (by simp [hs])
    have hval : w.val = .slice [a₁] := sliceElems_eq hs
    have hsplice : splice w.ret (erase a₁) = some a₁ := by
      apply splice_erase w.ret a₁ Flag.ofValueOf.sliceIndex
      intro m hm
      apply walk_met_data hw hn m
      rw [hval]
      simpa [met, metElems] using hm
    obtain ⟨c, r, hcr⟩ : ∃ c r, p ++ [10] = c :: r := by
      cases p with
      | nil => exact ⟨10, [], rfl⟩
      | cons x xs => exact ⟨x, xs ++ [10], List.cons_append _ _ _⟩
    have hwr : written (jsonCalls env [a₁]) = c :: r := by
      simp [jsonCalls, hp, written, hcr]
    rw [hwr]
    simp [← hcr, hu, hsplice]

/-- C8, witness: `Encode(Header{Type: Event, Namespace: "/a", ID: 5, NeedAck:
true}, &Buffer{Data: [1]})` and back, and `Encode(Header{Type: Connect,
Namespace: "/a"})` without arguments and back, with the rule that a namespace
starts with `'/'`. -/
theorem Decode_Encode_witness :
    ((Encode okEnv ⟨Event, [47, 97], 5, true⟩ (some [.ptr (.buffer bufA)]) []).2 = .ok () ∧
      Decode slashRule (toyUnmarshal (.iface (.ptr (.buffer ⟨[], true, 0⟩))))
          (framesOf ((Encode okEnv ⟨Event, [47, 97], 5, true⟩ (some [.ptr (.buffer bufA)])
            []).1.drop ([] : Log).length)) =
        some (⟨binaryEvent, [47, 97], 5, true⟩,
          some (.iface (.ptr (.buffer ⟨[1], true, 0⟩))))) ∧
    ((Encode okEnv ⟨Connect, [47, 97], 0, false⟩ none []).2 = .ok () ∧
      Decode slashRule (toyUnmarshal .invalid)
          (framesOf ((Encode okEnv ⟨Connect, [47, 97], 0, false⟩ none
            []).1.drop ([] : Log).length)) =
        some (⟨Connect, [47, 97], 0, false⟩, none)) :=
  ⟨Decode_Encode okEnv slashRule (toyUnmarshal (.iface (.ptr (.buffer ⟨[], true, 0⟩))))
    ⟨Event, [47, 97], 5, true⟩ (some [.ptr (.buffer bufA)])
    ⟨.slice [.iface (.ptr (.buffer ⟨[1], true, 0⟩))], [[1]], 1⟩ []
    (fun _ => rfl) rfl (by decide) (by decide)
    (by
      intro a₁ ha
      have ha₁ : a₁ = .iface (.ptr (.buffer ⟨[1], true, 0⟩)) := by simpa [sliceElems] using ha
      subst ha₁
      exact ⟨[91, 93], rfl, rfl, rfl⟩)
    (by decide) (fun _ => Or.inl rfl) (by decide)
    (by simp [restCalls, nsCalls, idCalls, jsonCalls, jsonError, flushCalls, sliceElems, written,
      written_append, written_writeBytes, decimal, slashRule, okEnv])
    (by decide) (by decide) (fun _ _ => Or.inl (by decide)),
   Decode_Encode okEnv slashRule (toyUnmarshal .invalid)
    ⟨Connect, [47, 97], 0, false⟩ none ⟨.slice [], [], 0⟩ []
    (fun _ => rfl) rfl (by decide) (by decide)
    (by
      intro a₁ ha
      simp [sliceElems] at ha)
    (by decide) (fun h => absurd h (by decide)) (by decide)
    (by simp [restCalls, nsCalls, idCalls, jsonCalls, jsonError, flushCalls, sliceElems, written,
      slashRule, okEnv])
    (by decide) (fun _ => rfl) (fun _ h => absurd h (by decide))⟩

/-! ## The result of the websocket dial (C11) -/

/-- C11. Whatever the URL, the timestamp and the request header: when the
handshake of the websocket library fails with error `e` and HTTP response
`resp` (possibly nil), `Transport.Dial` returns no connection and the
`DialError` holding `e` and `resp`; when it succeeds (nil error, and, as the
library promises, a response), `Dial` returns a connection built from the
socket, the dialed URL and the response, with a nil error. -/
theorem Dial_result {Socket Response ReqHeader : Type}
    (dialer : URL → ReqHeader → Handshake Socket Response) (timestamp : String) (u : URL)
    (requestHeader : ReqHeader) :
    (∀ e, (dialer (Transport.dialURL timestamp u) requestHeader).err = some e →
      Transport.Dial dialer timestamp u requestHeader =
        .dialError ⟨(dialer (Transport.dialURL timestamp u) requestHeader).resp, e⟩) ∧
    (∀ resp, (dialer (Transport.dialURL timestamp u) requestHeader).err = none →
      (dialer (Transport.dialURL timestamp u) requestHeader).resp = some resp →
      Transport.Dial dialer timestamp u requestHeader =
        .conn ⟨(dialer (Transport.dialURL timestamp u) requestHeader).c,
          Transport.dialURL timestamp u, resp⟩) := by
  constructor
  · intro e he
    simp [Transport.Dial, Transport.finish, he]
  · intro resp he hr
    simp [Transport.Dial, Transport.finish, he, hr]

/-- C11, witness: a refused and an accepted handshake. -/
theorem Dial_result_witness :
    Transport.Dial refusingDialer "t0" exampleURL () = .dialError ⟨some 403, .other 3⟩ ∧
    Transport.Dial acceptingDialer "t0" exampleURL () =
      .conn ⟨some 1, Transport.dialURL "t0" exampleURL, 101⟩ :=
  ⟨(Dial_result refusingDialer "t0" exampleURL ()).1 (.other 3) rfl,
    (Dial_result acceptingDialer "t0" exampleURL ()).2 101 rfl rfl⟩

/-! ## The body and the placeholders of the arguments (C13) -/

/-- C13, as stated, fails.  `Encode(h, "x", &Buffer{Data: [1]})`: the body of
the text frame is the serialization `"x"` of the first argument, which holds
no placeholder, yet the text frame counts one buffer and one binary frame is
emitted, for the placeholder in the second argument.  And
`Encode(Header{Type: Error}, &Buffer{Data: [2]})`: the buffer of the only
argument is emitted as a binary frame, but the text frame `4[]` has no buffer
count. -/
theorem Encode_buffer_outside_first_argument :
    Encode tagEnv ⟨Event, [], 0, false⟩ (some [.scalar "x", .ptr (.buffer bufA)]) [] =
      ([.NextWriter .TEXT, .WriteByte 53, .WriteByte 49, .WriteByte 45,
        .Write [34, 120, 34, 10], .Close,
        .NextWriter .BINARY, .Write [1], .Close], .ok ()) ∧
    tagEnv.json (.iface (.scalar "x")) = .ok [34, 120, 34] ∧
    placeholders (.iface (.scalar "x")) Flag.ofValueOf.sliceIndex = [] ∧
    Encode tagEnv ⟨Error, [], 0, false⟩ (some [.ptr (.buffer bufB)]) [] =
      ([.NextWriter .TEXT, .WriteByte 52, .Write [91, 93, 10], .Close,
        .NextWriter .BINARY, .Write [2], .Close], .ok ()) := by
  refine ⟨by rfl, by rfl, by rfl, by rfl⟩

/-- C13, amended.  When no call on the writer fails, the walk succeeds and the
stamped first argument `a₁` marshals to `p`, the text frame is the type digit,
the count segment, the namespace, the id and then `p` with its newline: the
body is the serialization of the first argument.  The buffers emitted as
binary frames are the data of the placeholders inside all the arguments, those
of the first argument first.  For a header of type `Event` or `Ack` with at
least one buffer the count segment is the decimal number of these buffers
followed by `'-'`, after the promoted type digit.  The buffers all lie inside
the first argument when the list has no further argument, and each of them
then stands in the emitted list at the index its placeholder carries. -/
theorem Encode_body_first_argument (env : Env) (hok : ∀ k, env.answer k = none) (h : Header)
    (args : Option (List Value)) (w : Walk Value) (log : Log) (a₁ : Value)
    (rest₁ : List Value) (p : List Nat)
    (hw : attachBuffer (valueOfArgs args) Flag.ofValueOf 0 = .ok w)
    (hn : w.ret.length < 2 ^ 64) (hid : h.ID < 2 ^ 64)
    (ha : sliceElems w.val = a₁ :: rest₁) (hj : env.json a₁ = .ok p) :
    Encode env h args log =
      (log ++ .NextWriter .TEXT ::
        (.WriteByte ((writePacket.typ h w.ret.length + 48) % 256) ::
          (countCalls (writePacket.typ h w.ret.length) w.ret.length ++
            (nsCalls h args ++ idCalls h ++ .Write (p ++ [10]) :: flushCalls env)) ++
        .Close :: w.ret.flatMap frameCalls), .ok ()) ∧
    w.ret = (placeholders a₁ Flag.ofValueOf.sliceIndex).map Buffer.Data ++
      ((metElems rest₁ Flag.ofValueOf.sliceIndex).filterMap Prod.snd).map Buffer.Data ∧
    (h.Typ = Event ∨ h.Typ = Ack → w.ret ≠ [] →
      (writePacket.typ h w.ret.length + 48) % 256 = h.Typ + 3 + 48 ∧
      countCalls (writePacket.typ h w.ret.length) w.ret.length =
        (decimal ((placeholders a₁ Flag.ofValueOf.sliceIndex).length +
          ((metElems rest₁ Flag.ofValueOf.sliceIndex).filterMap Prod.snd).length)).map
            Call.WriteByte ++ [.WriteByte 45]) ∧
    (rest₁ = [] →
      w.ret = (placeholders a₁ Flag.ofValueOf.sliceIndex).map Buffer.Data ∧
      ∀ b ∈ placeholders a₁ Flag.ofValueOf.sliceIndex, w.ret[b.num]? = some b.Data) := by
  have hv := sliceElems_eq ha
  have hE := Encode_ok env hok h args w log hw hn hid
  have hidx := walk_index_eq hw hn
  obtain ⟨-, hdata, hget⟩ := walk_indices hw hn
  have hpl : placeholders w.val Flag.ofValueOf =
      placeholders a₁ Flag.ofValueOf.sliceIndex ++
        (metElems rest₁ Flag.ofValueOf.sliceIndex).filterMap Prod.snd := by
    rw [hv]
    simp [placeholders, met, metElems]
  have hret : w.ret = (placeholders a₁ Flag.ofValueOf.sliceIndex).map Buffer.Data ++
      ((metElems rest₁ Flag.ofValueOf.sliceIndex).filterMap Prod.snd).map Buffer.Data := by
    rw [← hdata, hpl, List.map_append]
  refine ⟨?_, hret, ?_, ?_⟩
  · rw [hE]
    simp [jsonError, jsonCalls, textCalls, restCalls, ha, hj, hidx]
  · intro hea hne
    have hpos : w.ret.length > 0 := List.length_pos.mpr hne
    have hlen : w.ret.length = (placeholders a₁ Flag.ofValueOf.sliceIndex).length +
        ((metElems rest₁ Flag.ofValueOf.sliceIndex).filterMap Prod.snd).length := by
      rw [hret]
      simp
    have h₃ : (h.Typ + 3) % 256 = h.Typ + 3 := by
      simp only [Event, Ack] at hea
      omega
    have htyp : writePacket.typ h w.ret.length = h.Typ + 3 := by
      simp [writePacket.typ, hpos, hea, h₃]
    have hbin : h.Typ + 3 = binaryAck ∨ h.Typ + 3 = binaryEvent := by
      simp only [Event, Ack, binaryAck, binaryEvent] at hea ⊢
      omega
    have h₄ : (h.Typ + 3 + 48) % 256 = h.Typ + 3 + 48 := by
      simp only [Event, Ack] at hea
      omega
    rw [htyp, h₄, ← hlen]
    exact ⟨rfl, by simp [countCalls, hbin]⟩
  · rintro rfl
    have hpl₁ : placeholders w.val Flag.ofValueOf =
        placeholders a₁ Flag.ofValueOf.sliceIndex := by
      rw [hpl]
      simp [metElems]
    exact ⟨by simpa [metElems] using hret, fun b hb => hget b (hpl₁ ▸ hb)⟩

/-- C13, witness: `Encode(h, &A, []Buffer{B})` in the namespace `/a` with ack
id 7: the body is the serialization of the first argument, and the two buffers
counted and emitted are that of the first argument and then that of the
second. -/
theorem Encode_body_first_argument_witness :
    Encode okEnv ⟨Event, [47, 97], 7, true⟩
        (some [.ptr (.buffer bufA), .slice [.buffer bufB]]) [] =
      ([.NextWriter .TEXT, .WriteByte 53, .WriteByte 50, .WriteByte 45, .Write [47, 97],
        .WriteByte 44, .WriteByte 55, .Write [91, 93, 10], .Close,
        .NextWriter .BINARY, .Write [1], .Close,
        .NextWriter .BINARY, .Write [2], .Close], .ok ()) ∧
    okEnv.json (.iface (.ptr (.buffer ⟨[1], true, 0⟩))) = .ok [91, 93] ∧
    [[1], [2]] =
      (placeholders (.iface (.ptr (.buffer ⟨[1], true, 0⟩)))
        Flag.ofValueOf.sliceIndex).map Buffer.Data ++
      ((metElems [.iface (.slice [.buffer ⟨[2], true, 1⟩])]
        Flag.ofValueOf.sliceIndex).filterMap Prod.snd).map Buffer.Data := by
  have h := Encode_body_first_argument okEnv (fun _ => rfl) ⟨Event, [47, 97], 7, true⟩
    (some [.ptr (.buffer bufA), .slice [.buffer bufB]])
    ⟨.slice [.iface (.ptr (.buffer ⟨[1], true, 0⟩)),
      .iface (.slice [.buffer ⟨[2], true, 1⟩])], [[1], [2]], 2⟩ []
    (.iface (.ptr (.buffer ⟨[1], true, 0⟩))) [.iface (.slice [.buffer ⟨[2], true, 1⟩])] [91, 93]
    rfl (by decide) (by decide) rfl rfl
  refine ⟨?_, rfl, h.2.1⟩
  have h₁ := h.1
  simpa [writePacket.typ, countCalls, nsCalls, idCalls, flushCalls, frameCalls, decimal, Event,
    binaryEvent, binaryAck, okEnv] using h₁

/-! ## Structs of another type named `Buffer` (C15) -/

/-- C15, failing input.  `Encode(h, &bytes.Buffer{})`: the walker takes the
struct for a placeholder because its type is named `Buffer` (line 163 compares
the name only), does not recurse into it, and the unchecked conversion
`.(*Buffer)` of line 167 panics; `Encode` panics after requesting the text
frame, which the deferred `Close` closes.  Passed by value, the same struct
makes the walker return `errFailedBufferAddress`.  The same struct under
another type name is recursed into and the walk succeeds without any buffer. -/
theorem attachBuffer_foreign_Buffer_panics :
    attachBuffer (valueOfArgs (some [.ptr bytesBuffer])) Flag.ofValueOf 0 =
      .panic .typeAssertion ∧
    Encode okEnv ⟨Event, [], 0, false⟩ (some [.ptr bytesBuffer]) [] =
      ([.NextWriter .TEXT, .Close], .panic .typeAssertion) ∧
    attachBuffer (valueOfArgs (some [bytesBuffer])) Flag.ofValueOf 0 =
      .err .errFailedBufferAddress ∧
    attachBuffer
        (valueOfArgs (some [.ptr (.struct "Reader" [(.unexported, .slice []),
          (.unexported, .scalar "0"), (.unexported, .scalar "0")])]))
        Flag.ofValueOf 0 =
      .ok ⟨valueOfArgs (some [.ptr (.struct "Reader" [(.unexported, .slice []),
          (.unexported, .scalar "0"), (.unexported, .scalar "0")])]), [], 0⟩ := by
  refine ⟨by rfl, by rfl, by rfl, by rfl⟩

/-! ## `writeUint64` for every `uint64` (C16) -/

theorem base_rounds (i : Nat) (hi : i < 2 ^ 64) :
    ∀ (fuel j : Nat), j ≤ Nat.log 10 i →
      writeUint64.base fuel i (10 ^ j) = 10 ^ min (j + fuel) (Nat.log 10 i) := by
  intro fuel
  induction fuel with
  | zero =>
    intro j h₁
    simp [writeUint64.base, h₁]
  | succ f ih =>
    intro j h₁
    have hpos : 0 < 10 ^ j := by positivity
    rw [writeUint64.base]
    by_cases hlt : j < Nat.log 10 i
    · have hi0 : i ≠ 0 := by
        rintro rfl
        simp at hlt
      have hle : 10 ^ (j + 1) ≤ i := (Nat.pow_le_iff_le_log (by norm_num) hi0).mpr hlt
      have hge : i / 10 ^ j ≥ 10 := by
        rw [ge_iff_le, Nat.le_div_iff_mul_le hpos]
        calc 10 * 10 ^ j = 10 ^ (j + 1) := by ring
          _ ≤ i := hle
      have hmod : 10 ^ j * 10 % 2 ^ 64 = 10 ^ (j + 1) := by
        rw [← pow_succ]
        exact Nat.mod_eq_of_lt (lt_of_le_of_lt hle hi)
      rw [if_pos hge, hmod, ih (j + 1) hlt]
      congr 2
      omega
    · have hj : j = Nat.log 10 i := by omega
      have hnot : ¬ i / 10 ^ j ≥ 10 := by
        rw [ge_iff_le, Nat.le_div_iff_mul_le hpos, not_le]
        calc i < 10 ^ (Nat.log 10 i).succ := Nat.lt_pow_succ_log_self (by norm_num) i
          _ = 10 * 10 ^ j := by rw [hj, Nat.pow_succ]; ring
      rw [if_neg hnot, hj]
      congr 1
      omega

theorem decimal_length (i : Nat) : (decimal i).length = Nat.log 10 i + 1 := by
  rw [decimal_eq_bigEndian, List.length_map, bigEndian_length]

theorem decimal_mem (i d : Nat) (hd : d ∈ decimal i) : 48 ≤ d ∧ d ≤ 57 := by
  rw [decimal_eq_bigEndian, List.mem_map] at hd
  obtain ⟨x, hx, rfl⟩ := hd
  have := bigEndian_lt _ i (Nat.lt_pow_succ_log_self (by norm_num) i) x hx
  omega

theorem decimal_head (i : Nat) (h0 : i ≠ 0) : (decimal i).head? ≠ some 48 := by
  have hle : 10 ^ Nat.log 10 i ≤ i := Nat.pow_log_le_self 10 h0
  have hpos : 0 < i / 10 ^ Nat.log 10 i := Nat.div_pos hle (by positivity)
  have hhead : (decimal i).head? = some (i / 10 ^ Nat.log 10 i + 48) := by
    rw [decimal_eq_bigEndian]
    cases Nat.log 10 i <;> simp [bigEndian]
  rw [hhead]
  intro h
  have := Option.some.inj h
  omega

/-- C16.  For every `i < 2 ^ 64`, on a writer that never fails, `writeUint64`
returns (both loops end within 20 rounds, and more rounds change nothing) with
exactly the bytes of the canonical decimal representation of `i` written, one
`WriteByte` each: `"0"` for 0, no leading `'0'` otherwise, at most 20 bytes,
all of them digits, which read back as `i`.  After any number of rounds of
the first loop the divisor is the exact power of ten `10 ^ min rounds (log₁₀ i)`,
which is at most `max i 1`: the multiplication modulo `2 ^ 64` never wraps. -/
theorem writeUint64_canonical (env : Env) (hok : ∀ k, env.answer k = none) (i : Nat)
    (hi : i < 2 ^ 64) (fuel : Nat) (hf : 20 ≤ fuel) (log : Log) :
    writeUint64With fuel env i log = (log ++ (decimal i).map Call.WriteByte, .ok ()) ∧
    writeUint64 env i log = (log ++ (decimal i).map Call.WriteByte, .ok ()) ∧
    (∀ rounds, writeUint64.base rounds i 1 = 10 ^ min rounds (Nat.log 10 i) ∧
      10 ^ min rounds (Nat.log 10 i) ≤ max i 1) ∧
    (i = 0 → decimal i = [48]) ∧
    (i ≠ 0 → (decimal i).head? ≠ some 48) ∧
    (decimal i).length ≤ 20 ∧
    (∀ d ∈ decimal i, 48 ≤ d ∧ d ≤ 57) ∧
    parseUint 0 (decimal i) = (i, []) := by
  have hlog := log_lt_twenty i hi
  refine ⟨?_, writeUint64_ok env hok i hi log, ?_, ?_, decimal_head i, ?_, decimal_mem i, ?_⟩
  · have hb := base_loop i hi fuel 0 (Nat.zero_le _) (by omega)
    simp only [pow_zero] at hb
    rw [writeUint64With, hb,
      digits_ok env hok _ fuel i log (by omega) (Nat.lt_pow_succ_log_self (by norm_num) i),
      decimal_eq_bigEndian]
    simp [Function.comp_def]
  · intro rounds
    have hb := base_rounds i hi rounds 0 (Nat.zero_le _)
    simp only [pow_zero, Nat.zero_add] at hb
    refine ⟨hb, ?_⟩
    by_cases h0 : i = 0
    · subst h0
      simp
    · calc 10 ^ min rounds (Nat.log 10 i) ≤ 10 ^ Nat.log 10 i :=
            Nat.pow_le_pow_right (by norm_num) (Nat.min_le_right _ _)
        _ ≤ i := Nat.pow_log_le_self 10 h0
        _ ≤ max i 1 := le_max_left _ _
  · rintro rfl
    simp [decimal]
  · rw [decimal_length]
    omega
  · have := parseUint_decimal i [] (by rfl)
    simpa using this

/-- C16, witness: the largest `uint64`, twenty digits. -/
theorem writeUint64_canonical_witness :
    writeUint64 okEnv 18446744073709551615 [] =
      ([.WriteByte 49, .WriteByte 56, .WriteByte 52, .WriteByte 52, .WriteByte 54,
        .WriteByte 55, .WriteByte 52, .WriteByte 52, .WriteByte 48, .WriteByte 55,
        .WriteByte 51, .WriteByte 55, .WriteByte 48, .WriteByte 57, .WriteByte 53,
        .WriteByte 53, .WriteByte 49, .WriteByte 54, .WriteByte 49, .WriteByte 53], .ok ()) ∧
    writeUint64.base 20 18446744073709551615 1 = 10 ^ 19 := by
  have h := writeUint64_canonical okEnv (fun _ => rfl) 18446744073709551615 (by norm_num) 20
    (le_refl _) []
  have hlog : Nat.log 10 18446744073709551615 = 19 := by
    rw [Nat.log_eq_iff (by norm_num)]
    norm_num
  refine ⟨?_, ?_⟩
  · have h₁ := h.2.1
    simpa [decimal] using h₁
  · have h₂ := (h.2.2.1 20).1
    simpa [hlog] using h₂

/-! ## The declared count and the binary frames (C14) -/

theorem declaredCount_textCalls (env : Env) (h : Header) (args : Option (List Value))
    (w : Walk Value) (hidx : w.index = w.ret.length) (ht : h.Typ ≤ Error)
    (hp : w.ret ≠ [] → h.Typ = Event ∨ h.Typ = Ack) :
    declaredCount (written (textCalls env h args w)) = w.ret.length ∧
    (w.ret ≠ [] → (written (textCalls env h args w)).head? = some 53 ∨
      (written (textCalls env h args w)).head? = some 54) := by
  have hw : written (textCalls env h args w) =
      (writePacket.typ h w.ret.length + 48) % 256 ::
        (if writePacket.typ h w.ret.length = binaryAck ∨
            writePacket.typ h w.ret.length = binaryEvent then
          decimal w.index ++ 45 :: written (restCalls env h args w)
        else written (restCalls env h args w)) := by
    show written (Call.WriteByte _ :: (countCalls _ _ ++ restCalls env h args w)) = _
    rw [written, written_count]
  rw [hw]
  by_cases hn : w.ret = []
  · have hlen : w.ret.length = 0 := by simp [hn]
    have htyp : writePacket.typ h w.ret.length = h.Typ := by simp [writePacket.typ, hlen]
    have h₁ : ¬ (h.Typ = binaryAck ∨ h.Typ = binaryEvent) := by
      simp only [Error, binaryAck, binaryEvent] at ht ⊢
      omega
    have h₂ : (h.Typ + 48) % 256 = h.Typ + 48 := by
      simp only [Error] at ht
      omega
    have h₃ : ¬ (h.Typ + 48 = 48 + binaryEvent ∨ h.Typ + 48 = 48 + binaryAck) := by
      simp only [Error, binaryAck, binaryEvent] at ht ⊢
      omega
    rw [htyp, if_neg h₁, h₂]
    exact ⟨by simp [declaredCount, h₃, hlen], fun h => absurd hn h⟩
  · have hpos : w.ret.length > 0 := List.length_pos.mpr hn
    have hea := hp hn
    have htyp : writePacket.typ h w.ret.length = h.Typ + 3 := by
      have h₃ : (h.Typ + 3) % 256 = h.Typ + 3 := by
        simp only [Error] at ht
        omega
      simp [writePacket.typ, hpos, hea, h₃]
    have h₁ : h.Typ + 3 = binaryAck ∨ h.Typ + 3 = binaryEvent := by
      simp only [Event, Ack, binaryAck, binaryEvent] at hea ⊢
      omega
    have h₂ : (h.Typ + 3 + 48) % 256 = h.Typ + 3 + 48 := by
      simp only [Error] at ht
      omega
    have h₃ : h.Typ + 3 + 48 = 48 + binaryEvent ∨ h.Typ + 3 + 48 = 48 + binaryAck := by
      simp only [Event, Ack, binaryAck, binaryEvent] at hea ⊢
      omega
    have hparse := parseUint_decimal w.index (45 :: written (restCalls env h args w))
      (by simp [startsWithDigit])
    rw [htyp, if_pos h₁, h₂]
    refine ⟨by simp [declaredCount, h₃, hparse, hidx.symm], fun _ => ?_⟩
    simp only [Event, Ack] at hea
    rcases hea with hea | hea <;> simp [hea]

/-- C14, as stated, fails.  `Encode(Header{Type: Connect}, &Buffer{Data: [1]})`
on a writer that never fails: the guard of line 90 promotes only `Event` and
`Ack`, so the text frame is `0[]` with the type digit `'0'` and no count
segment, and yet one binary frame follows it. -/
theorem Encode_binary_frame_after_plain_type :
    Encode okEnv ⟨Connect, [], 0, false⟩ (some [.ptr (.buffer bufA)]) [] =
      ([.NextWriter .TEXT, .WriteByte 48, .Write [91, 93, 10], .Close,
        .NextWriter .BINARY, .Write [1], .Close], .ok ()) ∧
    framesOf [.NextWriter .TEXT, .WriteByte 48, .Write [91, 93, 10], .Close,
        .NextWriter .BINARY, .Write [1], .Close] =
      [(.TEXT, [48, 91, 93, 10]), (.BINARY, [1])] ∧
    declaredCount [48, 91, 93, 10] = 0 := by
  refine ⟨by rfl, by rfl, by rfl⟩

/-- C14, amended.  For a header of type `Event` or `Ack`, or of type `Connect`,
`Disconnect` or `Error` with arguments that hold no placeholder, when no call
on the writer fails, the walk succeeds and the first argument marshals:
`Encode` returns nil, the frames it puts on the wire are the text frame
followed by one binary frame per buffer, their number is the count the text
frame declares (0 without count segment), and when there is a binary frame the
type digit of the text frame is `'5'` or `'6'`. -/
theorem Encode_binary_frames_count (env : Env) (hok : ∀ k, env.answer k = none) (h : Header)
    (args : Option (List Value)) (w : Walk Value) (log : Log)
    (hw : attachBuffer (valueOfArgs args) Flag.ofValueOf 0 = .ok w)
    (hn : w.ret.length < 2 ^ 64) (hid : h.ID < 2 ^ 64)
    (hj : jsonError env (sliceElems w.val) = none) (ht : h.Typ ≤ Error)
    (hp : w.ret ≠ [] → h.Typ = Event ∨ h.Typ = Ack) :
    Encode env h args log =
      (log ++ .NextWriter .TEXT :: (textCalls env h args w ++
        .Close :: w.ret.flatMap frameCalls), .ok ()) ∧
    framesOf (.NextWriter .TEXT :: (textCalls env h args w ++
        .Close :: w.ret.flatMap frameCalls)) =
      (.TEXT, written (textCalls env h args w)) :: w.ret.map (fun b => (FrameType.BINARY, b)) ∧
    (w.ret.map (fun b => (FrameType.BINARY, b))).length =
      declaredCount (written (textCalls env h args w)) ∧
    (w.ret ≠ [] → (written (textCalls env h args w)).head? = some 53 ∨
      (written (textCalls env h args w)).head? = some 54) := by
  have hE := Encode_ok env hok h args w log hw hn hid
  rw [hj] at hE
  obtain ⟨hc, hd⟩ := declaredCount_textCalls env h args w (walk_index_eq hw hn) ht hp
  exact ⟨hE, framesOf_Encode env h args w, by rw [hc, List.length_map], hd⟩

/-- C14, witness: `Encode(Header{Type: Ack}, []Buffer{A, B})`: the text frame
`62-[]` declares two buffers and two binary frames follow. -/
theorem Encode_binary_frames_count_witness :
    Encode okEnv ⟨Ack, [], 0, false⟩ (some [.slice [.buffer bufA, .buffer bufB]]) [] =
      ([.NextWriter .TEXT, .WriteByte 54, .WriteByte 50, .WriteByte 45, .Write [91, 93, 10],
        .Close, .NextWriter .BINARY, .Write [1], .Close,
        .NextWriter .BINARY, .Write [2], .Close], .ok ()) ∧
    declaredCount [54, 50, 45, 91, 93, 10] = 2 := by
  have h := Encode_binary_frames_count okEnv (fun _ => rfl) ⟨Ack, [], 0, false⟩
    (some [.slice [.buffer bufA, .buffer bufB]])
    ⟨.slice [.iface (.slice [.buffer ⟨[1], true, 0⟩, .buffer ⟨[2], true, 1⟩])], [[1], [2]], 2⟩ []
    rfl (by decide) (by decide) rfl (by decide) (fun _ => Or.inr rfl)
  refine ⟨?_, by rfl⟩
  have h₁ := h.1
  simpa [textCalls, restCalls, jsonCalls, jsonError, sliceElems, writePacket.typ, countCalls,
    nsCalls, idCalls, flushCalls, frameCalls, decimal, Ack, Event, binaryEvent, binaryAck,
    okEnv] using h₁

/-! ## Errors of `Close` (C17) -/

theorem ignores_pure (env : Env) {α : Type} (a : α) :
    IgnoresClose env (pure a : Run α) (pure a : Run α) := by
  intro log
  exact ⟨[], by simp, fun _ => rfl⟩

theorem ignores_lift (env : Env) {α : Type} (r : Result α) :
    IgnoresClose env (Run.lift r) (Run.lift r) := by
  intro log
  exact ⟨[], by simp, fun _ => rfl⟩

theorem ignores_call (env : Env) (c : Call) (hc : c ≠ .Close) :
    IgnoresClose env (call env c) (call (quiet env) c) := by
  intro log
  refine ⟨[c], rfl, fun h => ?_⟩
  have h₀ := h 0 (by simp) (by simpa using hc)
  simp only [Nat.add_zero] at h₀
  simp [Parser.call, h₀, quiet]

theorem ignores_bind (env : Env) {α β : Type} {x x₀ : Run α} {f f₀ : α → Run β}
    (hx : IgnoresClose env x x₀) (hf : ∀ a, IgnoresClose env (f a) (f₀ a)) :
    IgnoresClose env (x >>= f) (x₀ >>= f₀) := by
  intro log
  obtain ⟨new₁, h₁, p₁⟩ := hx log
  rw [Run.bind_apply, Run.bind_apply]
  rcases hxl : x₀ log with ⟨log₁, r⟩
  rw [hxl] at h₁ p₁
  simp only at h₁
  subst h₁
  cases r with
  | ok a =>
    obtain ⟨new₂, h₂, p₂⟩ := hf a (log ++ new₁)
    refine ⟨new₁ ++ new₂, by simp [h₂], fun H => ?_⟩
    have H₁ : ∀ k, k < new₁.length → new₁[k]? ≠ some .Close →
        env.answer (log.length + k) = none := by
      intro k hk hc
      refine H k (by simp; omega) ?_
      rwa [List.getElem?_append_left hk]
    have H₂ : ∀ k, k < new₂.length → new₂[k]? ≠ some .Close →
        env.answer ((log ++ new₁).length + k) = none := by
      intro k hk hc
      have := H (new₁.length + k) (by simp; omega) (by
        rw [List.getElem?_append_right (by omega)]
        simpa using hc)
      rw [List.length_append, Nat.add_assoc]
      exact this
    rw [p₁ H₁]
    exact p₂ H₂
  | err e => exact ⟨new₁, rfl, fun H => by rw [p₁ H]⟩
  | panic p => exact ⟨new₁, rfl, fun H => by rw [p₁ H]⟩

theorem ignores_deferClose (env : Env) {α : Type} {x x₀ : Run α}
    (hx : IgnoresClose env x x₀) :
    IgnoresClose env (deferClose env x) (deferClose (quiet env) x₀) := by
  intro log
  obtain ⟨new₁, h₁, p₁⟩ := hx log
  refine ⟨new₁ ++ [.Close], by simp [Parser.deferClose, Parser.call, h₁], fun H => ?_⟩
  have H₁ : ∀ k, k < new₁.length → new₁[k]? ≠ some .Close →
      env.answer (log.length + k) = none := by
    intro k hk hc
    refine H k (by simp; omega) ?_
    rwa [List.getElem?_append_left hk]
  simp [Parser.deferClose, Parser.call, p₁ H₁]

/-! ## Every part of the encoder ignores the errors of `Close` -/

theorem ignores_digits (env : Env) : ∀ (fuel i base : Nat),
    IgnoresClose env (writeUint64.digits env fuel i base)
      (writeUint64.digits (quiet env) fuel i base) := by
  intro fuel
  induction fuel with
  | zero => intro i base; exact ignores_pure env _
  | succ f ih =>
    intro i base
    rw [writeUint64.digits, writeUint64.digits]
    split
    · exact ignores_bind env (ignores_call env _ (by simp)) (fun _ => ih _ _)
    · exact ignores_pure env _

theorem ignores_writeUint64 (env : Env) (i : Nat) :
    IgnoresClose env (writeUint64 env i) (writeUint64 (quiet env) i) :=
  ignores_digits env _ _ _

theorem ignores_count (env : Env) (typ max : Nat) :
    IgnoresClose env (writePacket.count env typ max) (writePacket.count (quiet env) typ max) := by
  unfold writePacket.count
  split
  · exact ignores_bind env (ignores_writeUint64 env _)
      (fun _ => ignores_call env _ (by simp))
  · exact ignores_pure env _

theorem ignores_ns (env : Env) (h : Header) (args : Option (List Value)) :
    IgnoresClose env (writePacket.ns env h args) (writePacket.ns (quiet env) h args) := by
  unfold writePacket.ns
  split
  · refine ignores_bind env (ignores_call env _ (by simp)) (fun _ => ?_)
    split
    · exact ignores_call env _ (by simp)
    · exact ignores_pure env _
  · exact ignores_pure env _

theorem ignores_id (env : Env) (h : Header) :
    IgnoresClose env (writePacket.id env h) (writePacket.id (quiet env) h) := by
  unfold writePacket.id
  split
  · exact ignores_writeUint64 env _
  · exact ignores_pure env _

theorem ignores_json (env : Env) (args : List Value) :
    IgnoresClose env (writePacket.json env args) (writePacket.json (quiet env) args) := by
  cases args with
  | nil => exact ignores_pure env _
  | cons arg0 rest =>
    show IgnoresClose env
      (match env.json arg0 with
        | .error e => Run.lift (.err e)
        | .ok p => call env (.Write (p ++ [10])))
      (match env.json arg0 with
        | .error e => Run.lift (.err e)
        | .ok p => call (quiet env) (.Write (p ++ [10])))
    cases env.json arg0 with
    | error e => exact ignores_lift env _
    | ok p => exact ignores_call env _ (by simp)

theorem ignores_flush (env : Env) :
    IgnoresClose env (writePacket.flush env) (writePacket.flush (quiet env)) := by
  show IgnoresClose env (if env.flusher then call env .Flush else pure ())
    (if env.flusher then call (quiet env) .Flush else pure ())
  split
  · exact ignores_call env _ (by simp)
  · exact ignores_pure env _

theorem ignores_rest (env : Env) (h : Header) (args : Option (List Value)) (w : Walk Value) :
    IgnoresClose env (writePacket.rest env h args w) (writePacket.rest (quiet env) h args w) :=
  ignores_bind env (ignores_ns env h args) fun _ =>
    ignores_bind env (ignores_id env h) fun _ =>
      ignores_bind env (ignores_json env _) fun _ =>
        ignores_bind env (ignores_flush env) fun _ => ignores_pure env _

theorem ignores_writePacket (env : Env) (h : Header) (args : Option (List Value)) :
    IgnoresClose env (writePacket env h args) (writePacket (quiet env) h args) :=
  ignores_deferClose env <|
    ignores_bind env (ignores_lift env _) fun w =>
      ignores_bind env (ignores_call env _ (by simp)) fun _ =>
        ignores_bind env (ignores_count env _ _) fun _ => ignores_rest env h args w

theorem ignores_writeBuffer (env : Env) (b : List Nat) :
    IgnoresClose env (writeBuffer env b) (writeBuffer (quiet env) b) :=
  ignores_deferClose env (ignores_call env _ (by simp))

theorem ignores_loop (env : Env) : ∀ (bs : List (List Nat)),
    IgnoresClose env (Encode.loop env bs) (Encode.loop (quiet env) bs) := by
  intro bs
  induction bs with
  | nil => exact ignores_pure env _
  | cons b rest ih =>
    exact ignores_bind env (ignores_call env _ (by simp)) fun _ =>
      ignores_bind env (ignores_writeBuffer env b) fun _ => ih

theorem ignores_Encode (env : Env) (h : Header) (args : Option (List Value)) :
    IgnoresClose env (Encode env h args) (Encode (quiet env) h args) :=
  ignores_bind env (ignores_call env _ (by simp)) fun _ =>
    ignores_bind env (ignores_writePacket env h args) fun bs => ignores_loop env bs

/-- C17, as stated, fails.  `Encode(h, make(chan int))`: no call on the writer
fails and the walk succeeds, but the argument does not marshal, and `Encode`
returns that error. -/
theorem Encode_marshal_error_returned :
    (∀ k, chanEnv.answer k = none) ∧
    attachBuffer (valueOfArgs (some [.scalar "chan"])) Flag.ofValueOf 0 =
      .ok ⟨valueOfArgs (some [.scalar "chan"]), [], 0⟩ ∧
    Encode chanEnv ⟨Event, [], 0, false⟩ (some [.scalar "chan"]) [] =
      ([.NextWriter .TEXT, .WriteByte 50, .Close], .err (.other 0)) := by
  refine ⟨fun _ => rfl, by rfl, by rfl⟩

/-- C17, amended.  When the walk succeeds, the first argument marshals, and
every call `Encode` makes other than a `Close` (every `NextWriter`, `Write`,
`WriteByte` and `Flush`) succeeds, then whatever the `Close` calls return,
`Encode` returns nil after making all its calls: the text frame, its `Close`,
and for every buffer a binary frame with its `Write` and its `Close`. -/
theorem Encode_ignores_close_errors (env : Env) (h : Header) (args : Option (List Value))
    (w : Walk Value) (log : Log)
    (hw : attachBuffer (valueOfArgs args) Flag.ofValueOf 0 = .ok w)
    (hn : w.ret.length < 2 ^ 64) (hid : h.ID < 2 ^ 64)
    (hj : jsonError env (sliceElems w.val) = none)
    (hcalls : ∀ k,
      k < (Call.NextWriter .TEXT :: (textCalls env h args w ++
        .Close :: w.ret.flatMap frameCalls)).length →
      (Call.NextWriter .TEXT :: (textCalls env h args w ++
        .Close :: w.ret.flatMap frameCalls))[k]? ≠ some .Close →
      env.answer (log.length + k) = none) :
    Encode env h args log =
      (log ++ .NextWriter .TEXT :: (textCalls env h args w ++
        .Close :: w.ret.flatMap frameCalls), .ok ()) := by
  have hE := Encode_ok (quiet env) (fun _ => rfl) h args w log hw hn hid
  have hj₀ : jsonError (quiet env) (sliceElems w.val) = none := hj
  rw [hj₀] at hE
  have ht : textCalls (quiet env) h args w = textCalls env h args w := rfl
  rw [ht] at hE
  obtain ⟨new, h₁, p⟩ := ignores_Encode env h args log
  rw [hE] at h₁ p
  have hnew := List.append_cancel_left h₁
  subst hnew
  exact p hcalls

/-- C17, witness: `Encode(Header{Type: Event}, &Buffer{Data: [1]})` on a writer
whose two `Close` calls (number 5 and 8 of the run) fail. -/
theorem Encode_ignores_close_errors_witness :
    closeErrEnv.answer 5 = some (.other 9) ∧ closeErrEnv.answer 8 = some (.other 9) ∧
    Encode closeErrEnv ⟨Event, [], 0, false⟩ (some [.ptr (.buffer bufA)]) [] =
      ([.NextWriter .TEXT, .WriteByte 53, .WriteByte 49, .WriteByte 45, .Write [91, 93, 10],
        .Close, .NextWriter .BINARY, .Write [1], .Close], .ok ()) := by
  have hC : Call.NextWriter .TEXT :: (textCalls closeErrEnv ⟨Event, [], 0, false⟩
        (some [.ptr (.buffer bufA)])
        ⟨.slice [.iface (.ptr (.buffer ⟨[1], true, 0⟩))], [[1]], 1⟩ ++
        .Close :: ([[1]] : List (List Nat)).flatMap frameCalls) =
      [.NextWriter .TEXT, .WriteByte 53, .WriteByte 49, .WriteByte 45, .Write [91, 93, 10],
        .Close, .NextWriter .BINARY, .Write [1], .Close] := by
    simp [textCalls, restCalls, jsonCalls, jsonError, sliceElems, writePacket.typ, countCalls,
      nsCalls, idCalls, flushCalls, frameCalls, decimal, Event, Ack, binaryEvent, binaryAck,
      closeErrEnv]
  have h := Encode_ignores_close_errors closeErrEnv ⟨Event, [], 0, false⟩
    (some [.ptr (.buffer bufA)])
    ⟨.slice [.iface (.ptr (.buffer ⟨[1], true, 0⟩))], [[1]], 1⟩ []
    rfl (by decide) (by decide) rfl (by
      rw [hC]
      decide)
  rw [hC] at h
  exact ⟨rfl, rfl, h⟩

/-! ## The polling round trip (C12) -/

theorem Link.Carries.frames {s : Link} {pending : List Packet} (h : s.Carries pending)
    (W : Wire)
    (hall : ∀ p ∈ pending, W.b64decode (W.b64encode (Packet.encode p).2) = (Packet.encode p).2) :
    ∀ f ∈ s.queue, W.b64decode (W.b64encode f.2) = f.2 := by
  intro f hf
  have hmem : f ∈ pending.map Packet.encode := by
    rw [← h.2.2]
    exact List.mem_append_right _ hf
  obtain ⟨p, hp, rfl⟩ := List.mem_map.mp hmem
  exact hall p hp

end Parser
